import Mathlib

/-!
# Verification of the Multi-Agent-Platform front-end orchestration client

A shallow embedding, in Lean 4, of the orchestration client code of the
Multi-Agent-Platform repository (the SSE client generator, the SSE block
parser, the agent-bridge HTTP helpers, the chat state maintenance and the
alias tables), together with theorems settling the specification claims
about that code.

JavaScript strings are modelled as `List Char`; JSON values as the
inductive type `Json` below (numbers restricted to integers, which covers
every value these code paths inspect).  `JSON.parse` is a platform
function, not repository code: the generic theorems are parametric in an
arbitrary parse oracle `jp : List Char → Option Json` (`none` models a
thrown `SyntaxError`), and concrete evaluations use the small model
`jsonParseModel` which agrees with `JSON.parse` on the scalar inputs used.
-/

namespace MAP

/-- Abbreviation: a JavaScript string, modelled as its character list. -/
abbrev Str := List Char

/-- The characters of a Lean string literal, used to write `Str` constants. -/
def S (s : String) : Str := s.data

/-- JSON values (JS objects/arrays/scalars); numbers restricted to integers. -/
inductive Json where
  | null : Json
  | bool : Bool → Json
  | num : Int → Json
  | str : Str → Json
  | arr : List Json → Json
  | obj : List (Str × Json) → Json

/-- `typeof v === "object" && v !== null` for a parsed JSON value: true exactly
for objects and arrays (JS arrays are objects). -/
def Json.isObj : Json → Bool
  | .obj _ => true
  | .arr _ => true
  | _ => false

/-- Field lookup on a JSON object (`v[name]`); `none` when `v` is not an
object or lacks the field (JS `undefined`). -/
def Json.getField (v : Json) (name : Str) : Option Json :=
  match v with
  | .obj fields => (fields.find? (fun p => p.1 = name)).map (·.2)
  | _ => none

/-! ## JavaScript string primitives (modelled over `List Char`) -/

/-- JS whitespace for `trim` / `\s`: space, tab, newline, carriage return,
form feed, vertical tab, no-break space and the ideographic space U+3000. -/
def jsWhite (c : Char) : Bool :=
  c = ' ' ∨ c = '\t' ∨ c = '\n' ∨ c = '\r' ∨ c = '\x0c' ∨ c = '\x0b' ∨
    c = ' ' ∨ c = '　'

/-- JS `String.prototype.trimStart`. -/
def jsTrimStart (s : Str) : Str := s.dropWhile jsWhite

/-- JS `String.prototype.trimEnd`. -/
def jsTrimEnd (s : Str) : Str := (s.reverse.dropWhile jsWhite).reverse

/-- JS `String.prototype.trim`. -/
def jsTrim (s : Str) : Str := jsTrimEnd (jsTrimStart s)

/-- JS `String.prototype.toLowerCase` (ASCII case folding; the inputs these
code paths lowercase are ASCII or case-less Japanese text). -/
def jsToLower (s : Str) : Str := s.map Char.toLower

/-- JS `String.prototype.startsWith`. -/
def jsStartsWith (s pre : Str) : Bool := pre.isPrefixOf s

/-! ## `parseSseEventBlock` (src/unnamed/part_003, lines 231-260) -/

/-- A parsed SSE event, the return shape of `parseSseEventBlock`. -/
structure SseEvent where
  event : Str
  data : Json

/-- The line loop of `parseSseEventBlock`: fold the block's lines over the
accumulator `(eventType, dataLines)`.  Empty lines and comment lines
(leading `:`) are skipped; `event:` lines replace the event type (falling
back to `"message"` when the trimmed remainder is empty); `data:` lines are
collected after `trimStart`. -/
def sseLineLoop : List Str → Str → List Str → Str × List Str
  | [], eventType, dataLines => (eventType, dataLines)
  | line :: rest, eventType, dataLines =>
    if line = [] then sseLineLoop rest eventType dataLines
    else if jsStartsWith line (S ":") then sseLineLoop rest eventType dataLines
    else if jsStartsWith line (S "event:") then
      let t := jsTrim (line.drop 6)
      sseLineLoop rest (if t = [] then S "message" else t) dataLines
    else if jsStartsWith line (S "data:") then
      sseLineLoop rest eventType (dataLines ++ [jsTrimStart (line.drop 5)])
    else sseLineLoop rest eventType dataLines

/-- `parseSseEventBlock(block)`, parametric in the `JSON.parse` oracle `jp`
(`none` models a thrown `SyntaxError`, handled by the `catch` that yields
`{raw: dataText}`); empty data text yields the empty object `{}`. -/
def parseSseEventBlock (jp : Str → Option Json) (block : Str) : SseEvent :=
  let lines := block.splitOn '\n'
  let folded := sseLineLoop lines (S "message") []
  let eventType := folded.1
  let dataText := List.intercalate (S "\n") folded.2
  let data :=
    if dataText ≠ [] then
      match jp dataText with
      | some v => v
      | none => Json.obj [(S "raw", Json.str dataText)]
    else Json.obj []
  { event := if eventType = [] then S "message" else eventType, data := data }

/-- Small model of the platform `JSON.parse`, agreeing with it on the scalar
literals `null`, `true`, `false` and unsigned decimal integers, and
conservatively reporting a parse failure elsewhere.  Only used to evaluate
the embedding at concrete inputs; the generic theorems are parametric in
the oracle. -/
def jsonParseModel (s : Str) : Option Json :=
  let t := jsTrim s
  if t = S "null" then some Json.null
  else if t = S "true" then some (Json.bool true)
  else if t = S "false" then some (Json.bool false)
  else if t ≠ [] ∧ t.all Char.isDigit then
    some (Json.num (t.foldl (fun n c => n * 10 + (Int.ofNat c.toNat - 48)) 0))
  else none

/-! ## The SSE client generator `orchestratorRequest`
(src/unnamed/part_003, lines 262-357)

The generator's post-fetch read loop is embedded as a pure function from
the list of decoded chunks delivered by `reader.read()` to the list of
events the generator yields.  The final element of the chunk list is
followed by the `done` read, exactly as in the source loop. -/

/-- An event is terminal when its name is `complete` or `error`
(the generator's early-return condition, line 332). -/
def isTerminal (e : SseEvent) : Bool :=
  e.event = S "complete" || e.event = S "error"

/-- First normalization pass, `buffer.replace(/\r\n/g, "\n")`
(leftmost, non-overlapping). -/
def stripCrLf : Str → Str
  | '\r' :: '\n' :: rest => '\n' :: stripCrLf rest
  | c :: rest => c :: stripCrLf rest
  | [] => []

/-- `buffer.replace(/\r\n/g, "\n").replace(/\r/g, "\n")` (line 323). -/
def normalizeNl (s : Str) : Str :=
  (stripCrLf s).map (fun c => if c = '\r' then '\n' else c)

/-- Split a buffer at each `"\n\n"` separator (leftmost first, as the inner
`indexOf("\n\n")` loop does): all parts but the last are complete raw event
blocks; the last part is the remaining buffer. -/
def splitBlank : Str → List Str
  | '\n' :: '\n' :: rest => [] :: splitBlank rest
  | c :: rest =>
    match splitBlank rest with
    | s :: ss => (c :: s) :: ss
    | [] => [[c]]
  | [] => [[]]

/-- The inner separator loop (lines 326-340): parse and yield each complete
raw event block in order, skipping blocks that are whitespace-only; stop
(Boolean result `true`, modelling `reader.cancel(); return`) as soon as a
yielded event is terminal. -/
def drainSegs (jp : Str → Option Json) : List Str → List SseEvent × Bool
  | [] => ([], false)
  | raw :: rest =>
    if jsTrim raw = [] then drainSegs jp rest
    else
      let p := parseSseEventBlock jp raw
      if isTerminal p then ([p], true)
      else
        let r := drainSegs jp rest
        (p :: r.1, r.2)

/-- The generator's read loop (lines 309-349) over the decoded chunks:
append the chunk to the buffer, normalize newlines, drain complete event
blocks (returning early on a terminal event); once the chunk list is
exhausted (`done`), drain once more and yield the trimmed trailing buffer
as a final event when non-empty. -/
def orchestratorRun (jp : Str → Option Json) : Str → List Str → List SseEvent
  | buffer, [] =>
    if buffer = [] then []
    else
      let parts := splitBlank (normalizeNl buffer)
      let r := drainSegs jp parts.dropLast
      if r.2 then r.1
      else
        let rem := jsTrim (parts.getLastD [])
        r.1 ++ (if rem = [] then [] else [parseSseEventBlock jp rem])
  | buffer, chunk :: chunks =>
    let buf := buffer ++ chunk
    if buf = [] then orchestratorRun jp [] chunks
    else
      let parts := splitBlank (normalizeNl buf)
      let r := drainSegs jp parts.dropLast
      if r.2 then r.1
      else r.1 ++ orchestratorRun jp (parts.getLastD []) chunks

/-- An event list in which a terminal event can only occur in last
position (the well-formedness the spec demands of the yielded stream). -/
inductive TermLastI : List SseEvent → Prop
  | nil : TermLastI []
  | single (e : SseEvent) : TermLastI [e]
  | cons (e : SseEvent) (l : List SseEvent) :
      isTerminal e = false → TermLastI l → TermLastI (e :: l)

theorem termLastI_of_noTerm {a : List SseEvent}
    (h : ∀ e ∈ a, isTerminal e = false) : TermLastI a := by
  induction a with
  | nil => exact .nil
  | cons x xs ih =>
    exact .cons x xs (h x (List.mem_cons_self x xs))
      (ih fun e he => h e (List.mem_cons_of_mem x he))

theorem termLastI_append {a b : List SseEvent}
    (ha : ∀ e ∈ a, isTerminal e = false) (hb : TermLastI b) :
    TermLastI (a ++ b) := by
  induction a with
  | nil => simpa using hb
  | cons x xs ih =>
    exact .cons x (xs ++ b) (ha x (List.mem_cons_self x xs))
      (ih fun e he => ha e (List.mem_cons_of_mem x he))

theorem termLastI_last {l l₁ l₂ : List SseEvent} {e : SseEvent}
    (h : TermLastI l) (heq : l = l₁ ++ e :: l₂) (ht : isTerminal e = true) :
    l₂ = [] := by
  induction h generalizing l₁ with
  | nil => cases l₁ <;> simp_all
  | single x =>
    cases l₁ with
    | nil => simp at heq; exact heq.2
    | cons c l₁' => simp at heq
  | cons x l hx hl ih =>
    cases l₁ with
    | nil =>
      simp at heq
      rw [heq.1] at hx
      rw [hx] at ht
      exact absurd ht (by simp)
    | cons c l₁' =>
      simp at heq
      exact ih heq.2

theorem drainSegs_stop {jp : Str → Option Json} {segs : List Str}
    (h : (drainSegs jp segs).2 = true) :
    ∃ es t, (drainSegs jp segs).1 = es ++ [t] ∧
      (∀ e ∈ es, isTerminal e = false) ∧ isTerminal t = true := by
  induction segs with
  | nil => simp [drainSegs] at h
  | cons raw rest ih =>
    by_cases hemp : jsTrim raw = []
    · simp only [drainSegs, if_pos hemp] at h ⊢
      exact ih h
    · by_cases hterm : isTerminal (parseSseEventBlock jp raw) = true
      · refine ⟨[], parseSseEventBlock jp raw, ?_, by simp, hterm⟩
        simp [drainSegs, if_neg hemp, if_pos hterm]
      · simp only [drainSegs, if_neg hemp, if_neg hterm] at h ⊢
        obtain ⟨es, t, h1, h2, h3⟩ := ih h
        refine ⟨parseSseEventBlock jp raw :: es, t, by simp [h1], ?_, h3⟩
        intro e he
        rcases List.mem_cons.mp he with rfl | he'
        · exact Bool.eq_false_iff.mpr hterm
        · exact h2 e he'

theorem drainSegs_noStop {jp : Str → Option Json} {segs : List Str}
    (h : (drainSegs jp segs).2 = false) :
    ∀ e ∈ (drainSegs jp segs).1, isTerminal e = false := by
  induction segs with
  | nil => simp [drainSegs]
  | cons raw rest ih =>
    by_cases hemp : jsTrim raw = []
    · simp only [drainSegs, if_pos hemp] at h ⊢
      exact ih h
    · by_cases hterm : isTerminal (parseSseEventBlock jp raw) = true
      · simp [drainSegs, if_neg hemp, if_pos hterm] at h
      · simp only [drainSegs, if_neg hemp, if_neg hterm] at h ⊢
        intro e he
        rcases List.mem_cons.mp he with rfl | he'
        · exact Bool.eq_false_iff.mpr hterm
        · exact ih h e he'

theorem orchestratorRun_termLast (jp : Str → Option Json)
    (chunks : List Str) (buffer : Str) :
    TermLastI (orchestratorRun jp buffer chunks) := by
  induction chunks generalizing buffer with
  | nil =>
    by_cases hb : buffer = []
    · simp [orchestratorRun, hb]
      exact .nil
    · simp only [orchestratorRun, if_neg hb]
      by_cases hstop : (drainSegs jp (splitBlank (normalizeNl buffer)).dropLast).2 = true
      · simp only [if_pos hstop]
        obtain ⟨es, t, h1, h2, _⟩ := drainSegs_stop hstop
        rw [h1]
        exact termLastI_append h2 (.single t)
      · simp only [if_neg hstop]
        by_cases hrem : jsTrim ((splitBlank (normalizeNl buffer)).getLastD []) = []
        · simp only [if_pos hrem, List.append_nil]
          exact termLastI_of_noTerm (drainSegs_noStop (Bool.eq_false_iff.mpr hstop))
        · simp only [if_neg hrem]
          exact termLastI_append (drainSegs_noStop (Bool.eq_false_iff.mpr hstop))
            (.single _)
  | cons chunk chunks ih =>
    by_cases hb : buffer ++ chunk = []
    · simp only [orchestratorRun, if_pos hb]
      exact ih []
    · simp only [orchestratorRun, if_neg hb]
      by_cases hstop : (drainSegs jp (splitBlank (normalizeNl (buffer ++ chunk))).dropLast).2 = true
      · simp only [if_pos hstop]
        obtain ⟨es, t, h1, h2, _⟩ := drainSegs_stop hstop
        rw [h1]
        exact termLastI_append h2 (.single t)
      · simp only [if_neg hstop]
        exact termLastI_append (drainSegs_noStop (Bool.eq_false_iff.mpr hstop)) (ih _)

/-- **C1**: for every JSON-parse oracle and every input chunk stream, the
event sequence yielded by the `orchestratorRequest` read loop contains no
event after the first `complete` or `error` event: whenever the yielded
sequence decomposes as `l₁ ++ e :: l₂` with `e` terminal, the tail `l₂`
is empty, so a terminal event, when present, is the last event. -/
theorem orchestratorRequest_no_event_after_terminal
    (jp : Str → Option Json) (chunks : List Str)
    (l₁ l₂ : List SseEvent) (e : SseEvent)
    (heq : orchestratorRun jp [] chunks = l₁ ++ e :: l₂)
    (ht : isTerminal e = true) : l₂ = [] :=
  termLastI_last (orchestratorRun_termLast jp chunks []) heq ht

/-- Witness for C1 at the concrete one-chunk stream `"event: complete\n\n"`,
whose yielded sequence is the single terminal `complete` event. -/
theorem orchestratorRequest_no_event_after_terminal_witness :
    orchestratorRun jsonParseModel [] [S "event: complete\n\n"] =
      [] ++ (⟨S "complete", Json.obj []⟩ : SseEvent) :: [] ∧
    isTerminal (⟨S "complete", Json.obj []⟩ : SseEvent) = true ∧
    ([] : List SseEvent) = [] :=
  ⟨rfl, rfl,
    orchestratorRequest_no_event_after_terminal jsonParseModel
      [S "event: complete\n\n"] [] [] ⟨S "complete", Json.obj []⟩ rfl rfl⟩

/-- The concatenated data text of an SSE block (`dataLines.join("\n")`). -/
def sseDataText (block : Str) : Str :=
  List.intercalate (S "\n") (sseLineLoop (block.splitOn '\n') (S "message") []).2

/-- **C9 (amended)**: `parseSseEventBlock` is total: for every oracle and
every input block it returns an event whose `event` field is a non-empty
string; its `data` field is the empty object when the concatenated data
text is empty, and the `{raw: dataText}` object when the data text fails
to parse; when the data text parses, `data` is the parsed JSON value
(which need not be an object). -/
theorem parseSseEventBlock_total (jp : Str → Option Json) (block : Str) :
    (parseSseEventBlock jp block).event ≠ [] ∧
    (sseDataText block = [] → (parseSseEventBlock jp block).data = Json.obj []) ∧
    (sseDataText block ≠ [] → jp (sseDataText block) = none →
      (parseSseEventBlock jp block).data =
        Json.obj [(S "raw", Json.str (sseDataText block))]) ∧
    (∀ v, sseDataText block ≠ [] → jp (sseDataText block) = some v →
      (parseSseEventBlock jp block).data = v) := by
  refine ⟨?_, ?_, ?_, ?_⟩
  · simp only [parseSseEventBlock]
    split
    · decide
    · assumption
  · intro h
    simp [parseSseEventBlock, sseDataText] at h ⊢
    simp [h]
  · intro h hnone
    simp only [sseDataText] at h hnone
    simp [parseSseEventBlock, h, hnone, sseDataText]
  · intro v hne hv
    simp only [sseDataText] at hne hv
    simp [parseSseEventBlock, hne, hv]

/-- Witness for C9 at the concrete block `"data:5"`: the data text `"5"` is
non-empty and parses, so the event's data is the parsed value `5`. -/
theorem parseSseEventBlock_total_witness :
    (parseSseEventBlock jsonParseModel (S "data:5")).data = Json.num 5 :=
  (parseSseEventBlock_total jsonParseModel (S "data:5")).2.2.2
    (Json.num 5) (by decide) rfl

/-- Counterexample to C9 as stated: on the block `"data:5"` the data text
parses as the JSON number `5`, so the returned `data` field is a number,
not an object. -/
theorem parseSseEventBlock_data_not_object :
    (parseSseEventBlock jsonParseModel (S "data:5")).data = Json.num 5 ∧
    Json.isObj (parseSseEventBlock jsonParseModel (S "data:5")).data = false :=
  ⟨rfl, rfl⟩

/-! ## Agent alias resolution
(`ASSISTANT_AGENT_LABEL_SYNONYMS` / `normalizeAssistantAgentLabel`,
src/unnamed/part_003 lines 460-494, and `AGENT_TO_VIEW_MAP` /
`resolveAgentToView`, src/unnamed/part_004 lines 56-63 and 96-101). -/

/-- The synonym table mapping assistant label spellings to a canonical
agent key (entries and order exactly as in the source). -/
def ASSISTANT_AGENT_LABEL_SYNONYMS : List (Str × List Str) :=
  [(S "lifestyle",
    [S "life-styleエージェント", S "life styleエージェント", S "life-style agent",
     S "life style agent", S "life-style-agent", S "life style", S "life-style",
     S "qa gemini", S "qaエージェント", S "qa エージェント", S "qa agent",
     S "qa-agent", S "qa", S "家庭内エージェント", S "faq gemini", S "faq"]),
   (S "browser", [S "browser agent", S "ブラウザエージェント"]),
   (S "iot", [S "iot agent", S "iot エージェント", S "iotエージェント"])]

/-- `normalizeAssistantAgentLabel(label)`: trim and lowercase, then return
the first canonical key whose synonym list contains the normalized label,
else the normalized label itself. -/
def normalizeAssistantAgentLabel (label : Str) : Str :=
  let normalized := jsToLower (jsTrim label)
  if normalized = [] then []
  else
    match ASSISTANT_AGENT_LABEL_SYNONYMS.find? (fun p => p.2.contains normalized) with
    | some p => p.1
    | none => normalized

/-- `AGENT_TO_VIEW_MAP` (src/unnamed/part_004 line 56). -/
def AGENT_TO_VIEW_MAP : List (Str × Str) :=
  [(S "browser", S "browser"), (S "iot", S "iot"), (S "faq", S "chat"),
   (S "qa", S "chat"), (S "chat", S "chat")]

/-- `resolveAgentToView(agentKey)`; `none` input models a non-string
argument, `none` output models `null`.  The lookup miss (`undefined`,
falsy) yields `null`; every table value is a non-empty string. -/
def resolveAgentToView (agentKey : Option Str) : Option Str :=
  match agentKey with
  | none => none
  | some k =>
    let normalized := jsToLower (jsTrim k)
    if normalized = [] then none
    else (AGENT_TO_VIEW_MAP.find? (fun p => p.1 = normalized)).map (·.2)

/-- Counterexample to C5 as stated: the alias-resolution function of the
code maps `"faq"` and `"qa"` to the canonical key `"lifestyle"`, not to a
`"knowledge"` kind, and the view table routes them to the chat view; no
table in the code names a `"knowledge"` agent. -/
theorem alias_resolution_not_knowledge :
    normalizeAssistantAgentLabel (S "faq") = S "lifestyle" ∧
    normalizeAssistantAgentLabel (S "qa") = S "lifestyle" ∧
    normalizeAssistantAgentLabel (S "faq") ≠ S "knowledge" ∧
    normalizeAssistantAgentLabel (S "qa") ≠ S "knowledge" := by
  refine ⟨rfl, rfl, ?_, ?_⟩ <;> decide

/-- **C5 (amended)**: the alias-resolution function maps the synonyms
`"faq"` and `"qa"` (after trimming and lowercasing) to the canonical
`lifestyle` agent key — the agent serving the knowledge/QA role — and the
canonical keys of the synonym table are `{lifestyle, browser, iot}`, with
no separate `knowledge` member; in the view table, `faq` and `qa` route to
the chat view. -/
theorem alias_resolution_faq_qa_lifestyle :
    normalizeAssistantAgentLabel (S "faq") = S "lifestyle" ∧
    normalizeAssistantAgentLabel (S "qa") = S "lifestyle" ∧
    normalizeAssistantAgentLabel (S " FAQ ") = S "lifestyle" ∧
    normalizeAssistantAgentLabel (S " Qa ") = S "lifestyle" ∧
    (ASSISTANT_AGENT_LABEL_SYNONYMS.map (·.1)) =
      [S "lifestyle", S "browser", S "iot"] ∧
    (∀ p ∈ ASSISTANT_AGENT_LABEL_SYNONYMS, p.1 ≠ S "knowledge") ∧
    resolveAgentToView (some (S "faq")) = some (S "chat") ∧
    resolveAgentToView (some (S "qa")) = some (S "chat") := by
  refine ⟨rfl, rfl, ?_, ?_, rfl, ?_, rfl, rfl⟩ <;> decide

/-- Witness for C5's synonym-table conjunct at the table's first entry:
the lifestyle key is not a `knowledge` key. -/
theorem alias_resolution_faq_qa_lifestyle_witness :
    (S "lifestyle",
      [S "life-styleエージェント", S "life styleエージェント", S "life-style agent",
       S "life style agent", S "life-style-agent", S "life style", S "life-style",
       S "qa gemini", S "qaエージェント", S "qa エージェント", S "qa agent",
       S "qa-agent", S "qa", S "家庭内エージェント", S "faq gemini", S "faq"]).1 ≠
      S "knowledge" :=
  (alias_resolution_faq_qa_lifestyle).2.2.2.2.2.1 _ (List.mem_cons_self _ _)

/-! ## Browser-agent base candidates
(`BROWSER_AGENT_BASE_HINTS`, src/unnamed/part_003 lines 887-916, and
`resolveBrowserAgentBase`, lines 918-930). -/

/-- One `addCandidate(value)` call of the `BROWSER_AGENT_BASE_HINTS`
initializer: skip falsy/whitespace-only values, split the trimmed value on
commas, and insert each trimmed non-empty part into the entry set
(JS `Set`: insertion order, duplicates ignored). -/
def addCandidates (entries : List Str) (value : Str) : List Str :=
  if value = [] then entries
  else
    let stringValue := jsTrim value
    if stringValue = [] then entries
    else
      (stringValue.splitOn ',').foldl
        (fun acc part =>
          let trimmed := jsTrim part
          if trimmed = [] then acc
          else if acc.contains trimmed then acc else acc ++ [trimmed])
        entries

/-- `BROWSER_AGENT_BASE_HINTS`: fold `addCandidate` over the configured
sources (query parameter, `window.BROWSER_AGENT_API_BASE`, meta tag), each
modelled as one string of the input list. -/
def BROWSER_AGENT_BASE_HINTS (sources : List Str) : List Str :=
  sources.foldl addCandidates []

/-- `value.replace(/\/+$/, "")`: strip a trailing run of slashes. -/
def stripTrailingSlashes (s : Str) : Str :=
  (s.reverse.dropWhile (fun c => c = '/')).reverse

/-- The `sanitize` helper of `resolveBrowserAgentBase`: trim, then strip
trailing slashes. -/
def sanitizeBase (s : Str) : Str := stripTrailingSlashes (jsTrim s)

/-- `resolveBrowserAgentBase()`: the first hint whose sanitized form is
non-empty wins; otherwise fall back to the window origin (when it is
neither empty nor the literal `"null"`), else `http://localhost:5005`. -/
def resolveBrowserAgentBase (hints : List Str) (origin : Str) : Str :=
  match hints.find? (fun h => sanitizeBase h ≠ []) with
  | some h => sanitizeBase h
  | none =>
    if origin ≠ [] ∧ origin ≠ S "null" then stripTrailingSlashes origin
    else S "http://localhost:5005"

/-- Specification-side description of "dropping empties": the trimmed,
non-empty comma-separated pieces of all sources, in order. -/
def hintPieces (sources : List Str) : List Str :=
  sources.flatMap (fun src =>
    if jsTrim src = [] then []
    else (((jsTrim src).splitOn ',').map jsTrim).filter (fun p => p ≠ []))

/-- Specification-side description of "dropping duplicates while
preserving order": append each element to the accumulator unless already
present. -/
def dedupAppend (acc : List Str) (l : List Str) : List Str :=
  l.foldl (fun a p => if a.contains p then a else a ++ [p]) acc

theorem foldl_trim_dedup (parts : List Str) (entries : List Str) :
    parts.foldl (fun acc part =>
        if jsTrim part = [] then acc
        else if acc.contains (jsTrim part) then acc else acc ++ [jsTrim part]) entries
      = dedupAppend entries ((parts.map jsTrim).filter (fun p => p ≠ [])) := by
  induction parts generalizing entries with
  | nil => rfl
  | cons p ps ih =>
    simp only [List.foldl_cons, List.map_cons, List.filter_cons]
    by_cases hp : jsTrim p = []
    · rw [if_pos hp, ih]
      simp [hp]
    · rw [if_neg hp, ih]
      have hd : decide (jsTrim p ≠ []) = true := by simpa using hp
      rw [hd]
      simp only [if_true, dedupAppend, List.foldl_cons]

theorem addCandidates_eq_dedupAppend (entries : List Str) (src : Str) :
    addCandidates entries src =
      dedupAppend entries
        (if jsTrim src = [] then []
         else (((jsTrim src).splitOn ',').map jsTrim).filter (fun p => p ≠ [])) := by
  by_cases h0 : src = []
  · subst h0
    simp [addCandidates, dedupAppend, jsTrim, jsTrimStart, jsTrimEnd]
  · by_cases h1 : jsTrim src = []
    · simp [addCandidates, h0, h1, dedupAppend]
    · simp only [addCandidates, if_neg h0, if_neg h1]
      rw [foldl_trim_dedup]

theorem hints_eq_dedup_pieces (sources : List Str) :
    BROWSER_AGENT_BASE_HINTS sources = dedupAppend [] (hintPieces sources) := by
  suffices h : ∀ acc, sources.foldl addCandidates acc =
      dedupAppend acc (hintPieces sources) by
    exact h []
  induction sources with
  | nil => intro acc; rfl
  | cons src rest ih =>
    intro acc
    simp only [List.foldl_cons, hintPieces, List.flatMap_cons]
    rw [ih, addCandidates_eq_dedupAppend]
    simp only [dedupAppend, hintPieces, List.foldl_append]

theorem dedupAppend_split (l : List Str) (acc : List Str) :
    ∃ l', dedupAppend acc l = acc ++ l' ∧ l'.Sublist l ∧
      (∀ p ∈ l, p ∈ acc ∨ p ∈ l') := by
  induction l generalizing acc with
  | nil => exact ⟨[], by simp [dedupAppend], List.Sublist.refl _, by simp⟩
  | cons x xs ih =>
    simp only [dedupAppend, List.foldl_cons]
    by_cases hx : acc.contains x
    · rw [if_pos hx]
      obtain ⟨l', h1, h2, h3⟩ := ih acc
      refine ⟨l', h1, h2.trans (List.sublist_cons_self x xs), ?_⟩
      intro p hp
      rcases List.mem_cons.mp hp with rfl | hp'
      · exact Or.inl (List.mem_of_elem_eq_true hx)
      · exact h3 p hp'
    · rw [if_neg hx]
      obtain ⟨l', h1, h2, h3⟩ := ih (acc ++ [x])
      rw [List.append_assoc] at h1
      refine ⟨x :: l', h1, h2.cons₂ x, ?_⟩
      intro p hp
      rcases List.mem_cons.mp hp with rfl | hp'
      · exact Or.inr (List.mem_cons_self _ _)
      · rcases h3 p hp' with h | h
        · rcases List.mem_append.mp h with h' | h'
          · exact Or.inl h'
          · exact Or.inr (by simp [List.mem_singleton.mp h'])
        · exact Or.inr (List.mem_cons_of_mem x h)

theorem dedupAppend_nodup (l : List Str) (acc : List Str)
    (hacc : acc.Nodup) : (dedupAppend acc l).Nodup := by
  induction l generalizing acc with
  | nil => exact hacc
  | cons x xs ih =>
    simp only [dedupAppend, List.foldl_cons]
    by_cases hx : acc.contains x
    · rw [if_pos hx]
      exact ih acc hacc
    · rw [if_neg hx]
      have hn : (acc ++ [x]).Nodup := by
        rw [List.nodup_append]
        refine ⟨hacc, List.nodup_singleton x, ?_⟩
        intro a ha hb
        rw [List.mem_singleton] at hb
        subst hb
        exact hx (List.elem_eq_true_of_mem ha)
      exact ih (acc ++ [x]) hn

theorem find?_first {α : Type} (p : α → Bool) (pre : List α) (x : α)
    (rest : List α) (hpre : ∀ y ∈ pre, p y = false) (hx : p x = true) :
    (pre ++ x :: rest).find? p = some x := by
  induction pre with
  | nil => simp [List.find?_cons_of_pos, hx]
  | cons a as ih =>
    rw [List.cons_append, List.find?_cons_of_neg _
      (by simp [hpre a (List.mem_cons_self a as)])]
    exact ih fun y hy => hpre y (List.mem_cons_of_mem a hy)

/-- **C8**: the browser-agent base hints are exactly the comma-split,
trimmed, non-empty pieces of the configured sources with duplicates
dropped in first-occurrence order (`dedupAppend`), hence duplicate-free
and an order-preserving sublist of the pieces containing every piece; and
the base actually used is the first hint that wins under the selection
rule of `resolveBrowserAgentBase` (non-empty after trimming and stripping
trailing slashes). -/
theorem browser_base_hints_first_wins (sources : List Str) (origin : Str) :
    BROWSER_AGENT_BASE_HINTS sources = dedupAppend [] (hintPieces sources) ∧
    (BROWSER_AGENT_BASE_HINTS sources).Nodup ∧
    (BROWSER_AGENT_BASE_HINTS sources).Sublist (hintPieces sources) ∧
    (∀ p ∈ hintPieces sources, p ∈ BROWSER_AGENT_BASE_HINTS sources) ∧
    (∀ pre h rest, BROWSER_AGENT_BASE_HINTS sources = pre ++ h :: rest →
      (∀ p ∈ pre, sanitizeBase p = []) → sanitizeBase h ≠ [] →
      resolveBrowserAgentBase (BROWSER_AGENT_BASE_HINTS sources) origin =
        sanitizeBase h) := by
  obtain ⟨l', hsplit, hsub, hmem⟩ := dedupAppend_split (hintPieces sources) []
  have hl' : dedupAppend [] (hintPieces sources) = l' := by simpa using hsplit
  have hbase := hints_eq_dedup_pieces sources
  refine ⟨hbase, ?_, ?_, ?_, ?_⟩
  · rw [hbase]
    exact dedupAppend_nodup _ _ List.nodup_nil
  · rw [hbase, hl']
    exact hsub
  · intro p hp
    rw [hbase, hl']
    rcases hmem p hp with h | h
    · simp at h
    · exact h
  · intro pre h rest heq hpre hh
    rw [resolveBrowserAgentBase, heq, find?_first _ pre h rest
      (fun y hy => by simpa using hpre y hy) (by simpa using hh)]

/-- Witness for C8 at the concrete sources `["a, b", "a"]`: the hints are
`["a", "b"]` (split on commas, trimmed, duplicate `"a"` dropped) and the
first candidate `"a"` wins. -/
theorem browser_base_hints_first_wins_witness :
    BROWSER_AGENT_BASE_HINTS [S "a, b", S "a"] = [] ++ S "a" :: [S "b"] ∧
    resolveBrowserAgentBase (BROWSER_AGENT_BASE_HINTS [S "a, b", S "a"])
      (S "") = sanitizeBase (S "a") :=
  ⟨rfl,
    (browser_base_hints_first_wins [S "a, b", S "a"] (S "")).2.2.2.2
      [] (S "a") [S "b"] rfl (by intro p hp; simp at hp) (by decide)⟩

/-! ## Agent-bridge HTTP helpers
(`lifestyleRequest`, src/unnamed/part_003 lines 177-229;
`browserAgentRequest`, lines 944-998) and the agent-status marks
(`markAgentUnavailable` / `markAgentAvailable`,
src/assets/js/agent-status.js lines 87-105). -/

/-- JS truthiness of a JSON value. -/
def jsTruthy : Json → Bool
  | .null => false
  | .bool b => b
  | .num n => n ≠ 0
  | .str s => s ≠ []
  | .arr _ => true
  | .obj _ => true

/-- The `data` variable after the body-read step of a bridge call: the
response text for non-JSON content (a JS string, hence `Json.str`; the
`catch` yields `""`) or the parsed JSON value (the `catch` yields `{}`). -/
structure FetchResponse where
  status : Nat
  statusText : Str
  body : Json

/-- `response.ok`: status in the 2xx range (fetch semantics). -/
def FetchResponse.ok (r : FetchResponse) : Bool :=
  200 ≤ r.status ∧ r.status ≤ 299

/-- Outcome of the `fetch` call: rejected (with `error.message`) or
completed with a response. -/
inductive FetchOutcome where
  | thrown : Str → FetchOutcome
  | completed : FetchResponse → FetchOutcome

/-- The agent-status side effect a bridge call performs. -/
inductive MarkAction where
  | unavailable : Str → Json → MarkAction
  | available : Str → MarkAction
  | skip : MarkAction

/-- The non-ok error message (lines 209-214 / 976-981):
a non-empty text body, else a string `error` field of a truthy body, else
`` `${status} ${statusText}` ``. -/
def errMessage (data : Json) (status : Nat) (statusText : Str) : Str :=
  let statusLine := (toString status).data ++ S " " ++ statusText
  match data with
  | .str s => if s ≠ [] then s else statusLine
  | d =>
    if jsTruthy d then
      match d.getField (S "error") with
      | some (.str e) => e
      | _ => statusLine
    else statusLine

/-- `payload.error || payload.message` (the message passed to
`markAgentUnavailable`); an absent field is `undefined`, modelled as
`null` (both falsy). -/
def fieldOr (p : Json) (k1 k2 : Str) : Json :=
  let v1 := (p.getField k1).getD Json.null
  if jsTruthy v1 then v1 else (p.getField k2).getD Json.null

/-- The payload normalization of an ok response (line 222 / 991):
a string body is wrapped as `{message: body}`. -/
def bridgePayload (body : Json) : Json :=
  match body with
  | .str s => Json.obj [(S "message", Json.str s)]
  | v => v

/-- `payload && payload.status === "unavailable"` (line 223 / 992). -/
def payloadUnavailable (payload : Json) : Bool :=
  jsTruthy payload &&
    match payload.getField (S "status") with
    | some (.str st) => st = S "unavailable"
    | _ => false

/-- Result of `lifestyleRequest`: a returned payload or a thrown Error. -/
inductive BridgeResult where
  | payload : Json → BridgeResult
  | thrown : Str → BridgeResult

/-- `lifestyleRequest(path, opts)` after the fetch outcome is fixed,
paired with the agent-status mark it performs. -/
def lifestyleRequest (o : FetchOutcome) : BridgeResult × MarkAction :=
  match o with
  | .thrown e =>
    (.payload (Json.obj
        [(S "status", Json.str (S "unavailable")),
         (S "message", Json.str (S "Life-Styleエージェントに接続できません。")),
         (S "error", Json.str e)]),
     .unavailable (S "lifestyle")
       (.str (if e = [] then S "接続に失敗しました。" else e)))
  | .completed r =>
    if r.ok then
      let payload := bridgePayload r.body
      if payloadUnavailable payload then
        (.payload payload,
         .unavailable (S "lifestyle") (fieldOr payload (S "error") (S "message")))
      else (.payload payload, .available (S "lifestyle"))
    else
      let message := errMessage r.body r.status r.statusText
      if 500 ≤ r.status then
        (.payload (Json.obj
            [(S "status", Json.str (S "unavailable")),
             (S "message", Json.str (S "Life-Styleエージェントに接続できません。")),
             (S "error", Json.str message)]),
         .unavailable (S "lifestyle") (.str message))
      else (.thrown message, .skip)

/-- The return shape of `browserAgentRequest`: `{data, status, unavailable}`
(the `unavailable` flag is absent, i.e. falsy, on the success path). -/
structure BrowserBridgeSuccess where
  data : Json
  status : Nat
  unavailable : Bool

/-- Result of `browserAgentRequest`: a returned record or a thrown Error
(whose `status` property is dropped by the model; no claim consults it). -/
inductive BrowserBridgeResult where
  | ret : BrowserBridgeSuccess → BrowserBridgeResult
  | thrown : Str → BrowserBridgeResult

/-- `browserAgentRequest(path, opts)` after the fetch outcome is fixed,
paired with the agent-status mark it performs. -/
def browserAgentRequest (o : FetchOutcome) : BrowserBridgeResult × MarkAction :=
  match o with
  | .thrown e =>
    (.ret ⟨Json.obj
        [(S "status", Json.str (S "unavailable")),
         (S "message", Json.str (S "ブラウザエージェントに接続できません。")),
         (S "error", Json.str e)], 0, true⟩,
     .unavailable (S "browser")
       (.str (if e = [] then S "接続に失敗しました。" else e)))
  | .completed r =>
    if r.ok then
      let payload := bridgePayload r.body
      if payloadUnavailable payload then
        (.ret ⟨payload, r.status, true⟩,
         .unavailable (S "browser") (fieldOr payload (S "error") (S "message")))
      else (.ret ⟨payload, r.status, false⟩, .available (S "browser"))
    else
      let message := errMessage r.body r.status r.statusText
      if 500 ≤ r.status then
        (.ret ⟨Json.obj
            [(S "status", Json.str (S "unavailable")),
             (S "message", Json.str (S "ブラウザエージェントに接続できません。")),
             (S "error", Json.str message)], r.status, true⟩,
         .unavailable (S "browser") (.str message))
      else (.thrown message, .skip)

/-- One per-agent entry of the agent-status module state. -/
structure AgentEntry where
  available : Option Bool
  enabled : Bool
  error : Json

/-- `state.agents` of src/assets/js/agent-status.js. -/
structure AgentStatusState where
  browser : AgentEntry
  lifestyle : AgentEntry
  iot : AgentEntry
  scheduler : AgentEntry

/-- `state.agents[agent]` (the `!state.agents[agent]` guard). -/
def AgentStatusState.get (st : AgentStatusState) (agent : Str) : Option AgentEntry :=
  if agent = S "browser" then some st.browser
  else if agent = S "lifestyle" then some st.lifestyle
  else if agent = S "iot" then some st.iot
  else if agent = S "scheduler" then some st.scheduler
  else none

/-- Replace the entry of a known agent. -/
def AgentStatusState.set (st : AgentStatusState) (agent : Str) (e : AgentEntry) :
    AgentStatusState :=
  if agent = S "browser" then { st with browser := e }
  else if agent = S "lifestyle" then { st with lifestyle := e }
  else if agent = S "iot" then { st with iot := e }
  else if agent = S "scheduler" then { st with scheduler := e }
  else st

/-- `markAgentUnavailable(agent, message)`: no-op on falsy/unknown agents;
otherwise set `available: false` and `error: message || previous`. -/
def markAgentUnavailable (agent : Str) (message : Json) (st : AgentStatusState) :
    AgentStatusState :=
  if agent = [] then st
  else
    match st.get agent with
    | none => st
    | some e =>
      st.set agent { e with
        available := some false,
        error := if jsTruthy message then message else e.error }

/-- `markAgentAvailable(agent)`: no-op on falsy/unknown agents; otherwise
set `available: true` and clear the error. -/
def markAgentAvailable (agent : Str) (st : AgentStatusState) : AgentStatusState :=
  if agent = [] then st
  else
    match st.get agent with
    | none => st
    | some e =>
      st.set agent { e with available := some true, error := Json.null }

/-- Apply a bridge call's mark action to the agent-status state. -/
def applyMark (m : MarkAction) (st : AgentStatusState) : AgentStatusState :=
  match m with
  | .unavailable agent msg => markAgentUnavailable agent msg st
  | .available agent => markAgentAvailable agent st
  | .skip => st

/-- **C2 (amended)**: for both agent-bridge helpers, a thrown fetch, a 5xx
response, or an *ok* response whose normalized payload carries
`status: "unavailable"` makes the call return (not throw) an
unavailable-status payload and mark the agent unavailable; an Error is
raised only for a non-ok response with status below 500; and the
unavailable mark sets the agent's `available` flag to `false`. -/
theorem agent_bridge_degrades_gracefully (o : FetchOutcome) (st : AgentStatusState) :
    (∀ e, o = .thrown e →
      (∃ p mm, lifestyleRequest o = (.payload p, .unavailable (S "lifestyle") mm) ∧
        payloadUnavailable p = true) ∧
      (∃ q mm, browserAgentRequest o = (.ret q, .unavailable (S "browser") mm) ∧
        q.unavailable = true ∧ payloadUnavailable q.data = true)) ∧
    (∀ r, o = .completed r → 500 ≤ r.status →
      (∃ p mm, lifestyleRequest o = (.payload p, .unavailable (S "lifestyle") mm) ∧
        payloadUnavailable p = true) ∧
      (∃ q mm, browserAgentRequest o = (.ret q, .unavailable (S "browser") mm) ∧
        q.unavailable = true ∧ payloadUnavailable q.data = true)) ∧
    (∀ r, o = .completed r → r.ok = true →
      payloadUnavailable (bridgePayload r.body) = true →
      lifestyleRequest o = (.payload (bridgePayload r.body),
        .unavailable (S "lifestyle")
          (fieldOr (bridgePayload r.body) (S "error") (S "message"))) ∧
      browserAgentRequest o = (.ret ⟨bridgePayload r.body, r.status, true⟩,
        .unavailable (S "browser")
          (fieldOr (bridgePayload r.body) (S "error") (S "message")))) ∧
    (∀ m, (lifestyleRequest o).1 = .thrown m →
      ∃ r, o = .completed r ∧ r.ok = false ∧ r.status < 500) ∧
    (∀ m, (browserAgentRequest o).1 = .thrown m →
      ∃ r, o = .completed r ∧ r.ok = false ∧ r.status < 500) ∧
    (∀ msg, ((markAgentUnavailable (S "lifestyle") msg st).lifestyle).available =
        some false ∧
      ((markAgentUnavailable (S "browser") msg st).browser).available = some false) := by
  refine ⟨?_, ?_, ?_, ?_, ?_, ?_⟩
  · rintro e rfl
    exact ⟨⟨_, _, rfl, rfl⟩, ⟨_, _, rfl, rfl, rfl⟩⟩
  · rintro r rfl h500
    have hok : r.ok = false := by
      simp only [FetchResponse.ok, decide_eq_false_iff_not, not_and]
      intro _
      omega
    constructor
    · have h : lifestyleRequest (.completed r) =
          (.payload (Json.obj
            [(S "status", Json.str (S "unavailable")),
             (S "message", Json.str (S "Life-Styleエージェントに接続できません。")),
             (S "error", Json.str (errMessage r.body r.status r.statusText))]),
           .unavailable (S "lifestyle")
             (.str (errMessage r.body r.status r.statusText))) := by
        simp [lifestyleRequest, hok, h500]
      exact ⟨_, _, h, rfl⟩
    · have h : browserAgentRequest (.completed r) =
          (.ret ⟨Json.obj
            [(S "status", Json.str (S "unavailable")),
             (S "message", Json.str (S "ブラウザエージェントに接続できません。")),
             (S "error", Json.str (errMessage r.body r.status r.statusText))],
            r.status, true⟩,
           .unavailable (S "browser")
             (.str (errMessage r.body r.status r.statusText))) := by
        simp [browserAgentRequest, hok, h500]
      exact ⟨_, _, h, rfl, rfl⟩
  · rintro r rfl hok hun
    constructor
    · simp [lifestyleRequest, hok, hun]
    · simp [browserAgentRequest, hok, hun]
  · intro m hm
    cases o with
    | thrown e => simp [lifestyleRequest] at hm
    | completed r =>
      by_cases hok : r.ok = true
      · exfalso
        simp only [lifestyleRequest, hok, if_true] at hm
        split at hm <;> simp at hm
      · have hok' : r.ok = false := Bool.eq_false_iff.mpr hok
        by_cases h5 : 500 ≤ r.status
        · exfalso
          simp [lifestyleRequest, hok', h5] at hm
        · exact ⟨r, rfl, hok', by omega⟩
  · intro m hm
    cases o with
    | thrown e => simp [browserAgentRequest] at hm
    | completed r =>
      by_cases hok : r.ok = true
      · exfalso
        simp only [browserAgentRequest, hok, if_true] at hm
        split at hm <;> simp at hm
      · have hok' : r.ok = false := Bool.eq_false_iff.mpr hok
        by_cases h5 : 500 ≤ r.status
        · exfalso
          simp [browserAgentRequest, hok', h5] at hm
        · exact ⟨r, rfl, hok', by omega⟩
  · intro msg
    constructor <;> rfl

/-- Witness for C2: a thrown fetch (`"ECONNREFUSED"`) makes
`lifestyleRequest` return an unavailable payload with the lifestyle
agent marked unavailable, and the mark flips `available` to `false`. -/
theorem agent_bridge_degrades_gracefully_witness :
    (∃ p mm,
      lifestyleRequest (.thrown (S "ECONNREFUSED")) =
        (.payload p, .unavailable (S "lifestyle") mm) ∧
      payloadUnavailable p = true) ∧
    ((markAgentUnavailable (S "lifestyle") (Json.str (S "ECONNREFUSED"))
        ⟨⟨none, true, Json.null⟩, ⟨none, true, Json.null⟩, ⟨none, true, Json.null⟩,
         ⟨none, true, Json.null⟩⟩).lifestyle).available = some false :=
  ⟨((agent_bridge_degrades_gracefully (.thrown (S "ECONNREFUSED"))
      ⟨⟨none, true, Json.null⟩, ⟨none, true, Json.null⟩, ⟨none, true, Json.null⟩,
       ⟨none, true, Json.null⟩⟩).1 (S "ECONNREFUSED") rfl).1,
   ((agent_bridge_degrades_gracefully (.thrown (S "ECONNREFUSED"))
      ⟨⟨none, true, Json.null⟩, ⟨none, true, Json.null⟩, ⟨none, true, Json.null⟩,
       ⟨none, true, Json.null⟩⟩).2.2.2.2.2 (Json.str (S "ECONNREFUSED"))).1⟩

/-- Counterexample to C2 as stated: a 404 response whose JSON body carries
`status: "unavailable"` makes `lifestyleRequest` throw (`"404 Not Found"`)
without marking the agent, because the non-ok branch throws before the
body's status field is consulted. -/
theorem agent_bridge_404_unavailable_body_throws :
    lifestyleRequest (.completed ⟨404, S "Not Found",
        Json.obj [(S "status", Json.str (S "unavailable"))]⟩) =
      (.thrown (S "404 Not Found"), .skip) := rfl

/-! ## Orchestrator message text pipeline
(`prefixOrchestratorText`, src/unnamed/part_003 lines 514-525; the label
extraction of `createMessageElement`, lines 399-407; the `plan` handler,
lines 1718-1735; the `after_execution` handler, lines 1829-1850). -/

/-- The regex `^\[([^\]]+)\]` match: a leading bracketed label with a
non-empty body free of `]`, returning the label and the remainder after
the closing bracket. -/
def labelMatch : Str → Option (Str × Str)
  | [] => none
  | c :: rest =>
    if c = '[' then
      let label := rest.takeWhile (fun x => x ≠ ']')
      if label = [] then none
      else
        match rest.drop label.length with
        | ']' :: after => some (label, after)
        | _ => none
    else none

/-- `/^\[[^\]]+\]/.test(trimmed)` (line 520). -/
def startsWithLabel (s : Str) : Bool := (labelMatch s).isSome

/-- `ORCHESTRATOR_SPEAKER_LABEL` (line 52). -/
def ORCHESTRATOR_SPEAKER_LABEL : Str := S "[Orchestrator]"

/-- `prefixOrchestratorText(text)`: trim; keep an already-labelled text;
otherwise prepend the `[Orchestrator]` speaker label. -/
def prefixOrchestratorText (text : Str) : Str :=
  let trimmed := jsTrim text
  if trimmed = [] then []
  else if startsWithLabel trimmed then trimmed
  else ORCHESTRATOR_SPEAKER_LABEL ++ S " " ++ trimmed

/-- The message body shown by `createMessageElement` for a non-user
message: the regex `^\[([^\]]+)\]\s*(.*)/s` strips a leading bracketed
label and the whitespace after it; an unlabelled text is shown whole. -/
def displayedBody (text : Str) : Str :=
  match labelMatch text with
  | some (_, after) => after.dropWhile jsWhite
  | none => text

/-- `ORCHESTRATOR_AGENT_LABELS` (src/unnamed/part_003 lines 93-98). -/
def ORCHESTRATOR_AGENT_LABELS : List (Str × Str) :=
  [(S "lifestyle", S "Life-Styleエージェント"),
   (S "browser", S "ブラウザエージェント"),
   (S "iot", S "IoT エージェント"),
   (S "scheduler", S "Scheduler エージェント")]

/-- The `plan` handler's message text (lines 1719-1730): a non-empty
trimmed `plan_summary` is shown as-is for a zero-task plan and prefixed
`計画: ` otherwise; fallback texts cover the empty-summary cases. -/
def planMessageText (state : Json) : Str :=
  let planSummary :=
    match state.getField (S "plan_summary") with
    | some (.str s) => jsTrim s
    | _ => []
  let hasTasks :=
    match state.getField (S "tasks") with
    | some (.arr ts) => ts.length > 0
    | _ => false
  if planSummary ≠ [] then
    if hasTasks then S "計画: " ++ planSummary else planSummary
  else if hasTasks = false then
    S "今回のリクエストでは実行すべきタスクはありませんでした。"
  else S "計画を作成しました。タスクを実行します…"

/-- The plan message's displayed body: the handler stores
`prefixOrchestratorText(textValue)` and the renderer strips the leading
label. -/
def planDisplayedBody (state : Json) : Str :=
  displayedBody (prefixOrchestratorText (planMessageText state))

/-- The `after_execution` handler's agent label (lines 1833-1834):
trimmed lowercased `task.agent`, looked up in the label table (falling
back to the raw key), or `エージェント` when absent/empty. -/
def afterExecutionAgentLabel (task : Json) : Str :=
  let agentRaw :=
    match task.getField (S "agent") with
    | some (.str s) => jsToLower (jsTrim s)
    | _ => []
  if agentRaw ≠ [] then
    match ORCHESTRATOR_AGENT_LABELS.find? (fun p => p.1 = agentRaw) with
    | some p => p.2
    | none => agentRaw
  else S "エージェント"

/-- `typeof result.<k> === "string" ? result.<k>.trim() : ""` — the
trimmed string field extraction used for `response` and `error`. -/
def fieldTrimmed (result : Json) (k : Str) : Str :=
  match result.getField k with
  | some (.str s) => jsTrim s
  | _ => []

/-- The text after the label in the `after_execution` final message
(lines 1835-1844): the error text, the clarification request or the
response text, with the per-branch fallback constants. -/
def afterExecutionTail (result : Json) : Str :=
  let status :=
    match result.getField (S "status") with
    | some (.str s) => s
    | _ => []
  let isClarification := status = S "needs_info"
  let responseText := fieldTrimmed result (S "response")
  let errorText := fieldTrimmed result (S "error")
  if status = S "error" then
    if errorText ≠ [] then errorText else S "タスクの実行に失敗しました。"
  else if isClarification then
    if responseText ≠ [] then responseText
    else S "このタスクを実行するには追加の指示が必要です。"
  else
    if responseText ≠ [] then responseText else S "タスクを完了しました。"

/-- The `after_execution` handler's final message text (lines 1840-1844):
each branch is the template `` `[${agentLabel}] ${...}` ``. -/
def afterExecutionFinalText (task result : Json) : Str :=
  S "[" ++ afterExecutionAgentLabel task ++ S "] " ++ afterExecutionTail result

/-! ### String lemmas for the text pipeline -/

theorem dropWhile_head?_false {p : Char → Bool} {l : Str} {c : Char}
    (h : (l.dropWhile p).head? = some c) : p c = false := by
  induction l with
  | nil => simp at h
  | cons x xs ih =>
    rw [List.dropWhile_cons] at h
    split at h
    · exact ih h
    · simp at h
      subst h
      simp_all

theorem dropWhile_eq_self_of_head {p : Char → Bool} {l : Str}
    (h : ∀ c, l.head? = some c → p c = false) : l.dropWhile p = l := by
  cases l with
  | nil => rfl
  | cons x xs => simp [List.dropWhile_cons, h x rfl]

theorem jsTrimStart_head?_false {s : Str} {c : Char}
    (h : (jsTrimStart s).head? = some c) : jsWhite c = false :=
  dropWhile_head?_false h

theorem jsTrimEnd_prefix (l : Str) : jsTrimEnd l <+: l := by
  have h1 : l.reverse.dropWhile jsWhite <:+ l.reverse := List.dropWhile_suffix _
  have h2 := List.reverse_prefix.mpr h1
  rwa [List.reverse_reverse] at h2

theorem jsTrim_head?_false {s : Str} {c : Char}
    (h : (jsTrim s).head? = some c) : jsWhite c = false := by
  obtain ⟨t, ht⟩ := jsTrimEnd_prefix (jsTrimStart s)
  have h' : (jsTrimEnd (jsTrimStart s)).head? = some c := h
  apply jsTrimStart_head?_false (s := s)
  rw [← ht]
  cases hJ : jsTrimEnd (jsTrimStart s) with
  | nil => rw [hJ] at h'; simp at h'
  | cons a u =>
    rw [hJ] at h'
    simpa using h'

theorem jsTrim_getLast?_false {s : Str} {c : Char}
    (h : (jsTrim s).getLast? = some c) : jsWhite c = false := by
  apply dropWhile_head?_false (p := jsWhite) (l := (jsTrimStart s).reverse)
  rw [← List.head?_reverse] at h
  rwa [jsTrim, jsTrimEnd, List.reverse_reverse] at h

theorem jsTrim_eq_self {l : Str}
    (hh : ∀ c, l.head? = some c → jsWhite c = false)
    (hl : ∀ c, l.getLast? = some c → jsWhite c = false) : jsTrim l = l := by
  have h1 : jsTrimStart l = l := dropWhile_eq_self_of_head hh
  rw [jsTrim, h1, jsTrimEnd]
  have h2 : l.reverse.dropWhile jsWhite = l.reverse := by
    apply dropWhile_eq_self_of_head
    intro c hc
    apply hl
    rwa [List.head?_reverse] at hc
  rw [h2, List.reverse_reverse]

theorem takeWhile_append_stop {label body : Str}
    (hnb : ∀ c ∈ label, c ≠ ']') :
    (label ++ ']' :: body).takeWhile (fun x => x ≠ ']') = label := by
  induction label with
  | nil => simp [List.takeWhile_cons]
  | cons a as ih =>
    have ha : a ≠ ']' := hnb a (List.mem_cons_self a as)
    simp only [List.cons_append, List.takeWhile_cons]
    simp [ha]
    simpa using ih fun c hc => hnb c (List.mem_cons_of_mem a hc)

theorem labelMatch_build (label body : Str) (hne : label ≠ [])
    (hnb : ∀ c ∈ label, c ≠ ']') :
    labelMatch ('[' :: (label ++ ']' :: body)) = some (label, body) := by
  simp only [labelMatch]
  rw [if_pos trivial, takeWhile_append_stop hnb, if_neg hne, List.drop_left]
  rfl

theorem labelMatch_not_bracket {c : Char} {rest : Str} (h : c ≠ '[') :
    labelMatch (c :: rest) = none := by
  simp [labelMatch, h]

theorem prefixOrchestratorText_prepends {u : Str} (hne : u ≠ [])
    (hh : ∀ c, u.head? = some c → jsWhite c = false)
    (hl : ∀ c, u.getLast? = some c → jsWhite c = false)
    (hnl : startsWithLabel u = false) :
    prefixOrchestratorText u = ORCHESTRATOR_SPEAKER_LABEL ++ S " " ++ u := by
  have htrim : jsTrim u = u := jsTrim_eq_self hh hl
  simp only [prefixOrchestratorText, htrim]
  rw [if_neg hne, if_neg (by simp [hnl])]

theorem displayedBody_speaker (u : Str)
    (hh : ∀ c, u.head? = some c → jsWhite c = false) :
    displayedBody (ORCHESTRATOR_SPEAKER_LABEL ++ S " " ++ u) = u := by
  have hshape : ORCHESTRATOR_SPEAKER_LABEL ++ S " " ++ u =
      '[' :: (S "Orchestrator" ++ ']' :: ' ' :: u) := by
    simp [ORCHESTRATOR_SPEAKER_LABEL, S]
  rw [displayedBody, hshape,
    labelMatch_build (S "Orchestrator") (' ' :: u) (by decide) (by decide)]
  show (' ' :: u).dropWhile jsWhite = u
  rw [List.dropWhile_cons]
  simp only [show jsWhite ' ' = true from rfl, if_true]
  exact dropWhile_eq_self_of_head hh

/-- **C6 (amended)**: for a `plan` event whose state has a string
`plan_summary` with non-empty trim `t` that does not itself begin with a
bracketed label, the displayed plan body is exactly `t` when the tasks
list is empty, and exactly `計画: ` followed by `t` when it is non-empty
(the stored text carries the `[Orchestrator]` speaker label, which the
renderer strips). -/
theorem plan_zero_tasks_direct_answer (state : Json) (ps : Str) (ts : List Json)
    (hps : state.getField (S "plan_summary") = some (.str ps))
    (hts : state.getField (S "tasks") = some (.arr ts))
    (hne : jsTrim ps ≠ [])
    (hnl : startsWithLabel (jsTrim ps) = false) :
    (ts = [] → planDisplayedBody state = jsTrim ps) ∧
    (ts ≠ [] → planDisplayedBody state = S "計画: " ++ jsTrim ps) := by
  have hh : ∀ c, (jsTrim ps).head? = some c → jsWhite c = false :=
    fun c hc => jsTrim_head?_false hc
  have hl : ∀ c, (jsTrim ps).getLast? = some c → jsWhite c = false :=
    fun c hc => jsTrim_getLast?_false hc
  constructor
  · rintro rfl
    have htext : planMessageText state = jsTrim ps := by
      simp [planMessageText, hps, hts, hne]
    rw [planDisplayedBody, htext,
      prefixOrchestratorText_prepends hne hh hl hnl,
      displayedBody_speaker _ hh]
  · intro hts'
    have htext : planMessageText state = S "計画: " ++ jsTrim ps := by
      simp [planMessageText, hps, hts, hne, List.length_pos.mpr hts']
    have hne2 : S "計画: " ++ jsTrim ps ≠ [] := by
      intro h
      rcases List.append_eq_nil.mp h with ⟨h1, _⟩
      exact absurd h1 (by decide)
    have hh2 : ∀ c, (S "計画: " ++ jsTrim ps).head? = some c → jsWhite c = false := by
      intro c hc
      simp [S] at hc
      rw [← hc]
      decide
    have hl2 : ∀ c, (S "計画: " ++ jsTrim ps).getLast? = some c → jsWhite c = false := by
      intro c hc
      rw [List.getLast?_append_of_ne_nil _ hne] at hc
      exact hl c hc
    have hnl2 : startsWithLabel (S "計画: " ++ jsTrim ps) = false := by
      have : S "計画: " ++ jsTrim ps = '計' :: (S "画: " ++ jsTrim ps) := by simp [S]
      rw [startsWithLabel, this, labelMatch_not_bracket (by decide)]
      rfl
    rw [planDisplayedBody, htext,
      prefixOrchestratorText_prepends hne2 hh2 hl2 hnl2,
      displayedBody_speaker _ hh2]

/-- Witness for C6 at the concrete Scenario-A plan event
(`plan_summary: "今日は予定がありません。"`, zero tasks): the displayed
body is exactly that text. -/
theorem plan_zero_tasks_direct_answer_witness :
    planDisplayedBody (Json.obj
        [(S "plan_summary", Json.str (S "今日は予定がありません。")),
         (S "tasks", Json.arr [])]) = jsTrim (S "今日は予定がありません。") :=
  (plan_zero_tasks_direct_answer
      (Json.obj [(S "plan_summary", Json.str (S "今日は予定がありません。")),
                 (S "tasks", Json.arr [])])
      (S "今日は予定がありません。") [] rfl rfl (by decide) (by decide)).1 rfl

/-- Counterexample to C6 as stated: a zero-task plan whose `plan_summary`
is `"[a] b"` is displayed with body `"b"` (the leading `[a]` is parsed as
the sender label by the renderer), not with the plan_summary text
verbatim. -/
theorem plan_summary_label_swallowed :
    planDisplayedBody (Json.obj
        [(S "plan_summary", Json.str (S "[a] b")),
         (S "tasks", Json.arr [])]) = S "b" ∧
    S "b" ≠ S "[a] b" := by
  constructor
  · rfl
  · decide

theorem fieldTrimmed_getLast {result : Json} {k : Str} {c : Char}
    (hc : (fieldTrimmed result k).getLast? = some c) : jsWhite c = false := by
  rw [fieldTrimmed] at hc
  split at hc
  · exact jsTrim_getLast?_false hc
  · simp at hc

theorem afterExecutionTail_props (result : Json) :
    afterExecutionTail result ≠ [] ∧
    (∀ c, (afterExecutionTail result).getLast? = some c → jsWhite c = false) := by
  simp only [afterExecutionTail]
  split
  · split
    · rename_i h
      exact ⟨h, fun c hc => fieldTrimmed_getLast hc⟩
    · refine ⟨by decide, ?_⟩
      intro c hc
      simp [S] at hc
      rw [← hc]
      decide
  · split
    · split
      · rename_i h
        exact ⟨h, fun c hc => fieldTrimmed_getLast hc⟩
      · refine ⟨by decide, ?_⟩
        intro c hc
        simp [S] at hc
        rw [← hc]
        decide
    · split
      · rename_i h
        exact ⟨h, fun c hc => fieldTrimmed_getLast hc⟩
      · refine ⟨by decide, ?_⟩
        intro c hc
        simp [S] at hc
        rw [← hc]
        decide

theorem labeled_text_kept (L tail : Str) (hLne : L ≠ [])
    (hLb : ∀ c ∈ L, c ≠ ']') (htne : tail ≠ [])
    (htl : ∀ c, tail.getLast? = some c → jsWhite c = false) :
    startsWithLabel (S "[" ++ L ++ S "] " ++ tail) = true ∧
    prefixOrchestratorText (S "[" ++ L ++ S "] " ++ tail) =
      S "[" ++ L ++ S "] " ++ tail := by
  have hshape : S "[" ++ L ++ S "] " ++ tail = '[' :: (L ++ ']' :: ' ' :: tail) := by
    simp [S]
  have hsw : startsWithLabel (S "[" ++ L ++ S "] " ++ tail) = true := by
    rw [startsWithLabel, hshape, labelMatch_build L (' ' :: tail) hLne hLb]
    rfl
  refine ⟨hsw, ?_⟩
  have htrim : jsTrim (S "[" ++ L ++ S "] " ++ tail) =
      S "[" ++ L ++ S "] " ++ tail := by
    apply jsTrim_eq_self
    · intro c hc
      rw [hshape] at hc
      simp at hc
      rw [← hc]
      decide
    · intro c hc
      rw [List.getLast?_append_of_ne_nil _ htne] at hc
      exact htl c hc
  simp only [prefixOrchestratorText, htrim]
  rw [if_neg (by rw [hshape]; exact List.cons_ne_nil _ _), if_pos hsw]

/-- **C7**: for every `after_execution` event whose task agent trims and
lowercases to one of the four known keys, the final message text is
prefixed `[<agent label>] ` per the label table (scheduler →
`Scheduler エージェント`, browser → `ブラウザエージェント`, iot →
`IoT エージェント`, lifestyle → `Life-Styleエージェント`), the stored text
(`prefixOrchestratorText` of it) is unchanged — no second label is added —
and in general `prefixOrchestratorText` returns any already-labelled
trimmed text verbatim. -/
theorem after_execution_agent_labeled (task result : Json) (ag : Str)
    (hag : task.getField (S "agent") = some (.str ag)) :
    (jsToLower (jsTrim ag) = S "scheduler" →
      afterExecutionFinalText task result =
        S "[Scheduler エージェント] " ++ afterExecutionTail result) ∧
    (jsToLower (jsTrim ag) = S "browser" →
      afterExecutionFinalText task result =
        S "[ブラウザエージェント] " ++ afterExecutionTail result) ∧
    (jsToLower (jsTrim ag) = S "iot" →
      afterExecutionFinalText task result =
        S "[IoT エージェント] " ++ afterExecutionTail result) ∧
    (jsToLower (jsTrim ag) = S "lifestyle" →
      afterExecutionFinalText task result =
        S "[Life-Styleエージェント] " ++ afterExecutionTail result) ∧
    ((jsToLower (jsTrim ag) = S "scheduler" ∨ jsToLower (jsTrim ag) = S "browser" ∨
      jsToLower (jsTrim ag) = S "iot" ∨ jsToLower (jsTrim ag) = S "lifestyle") →
      prefixOrchestratorText (afterExecutionFinalText task result) =
        afterExecutionFinalText task result) ∧
    (∀ t, startsWithLabel (jsTrim t) = true → prefixOrchestratorText t = jsTrim t) := by
  obtain ⟨htne, htl⟩ := afterExecutionTail_props result
  have hlabel : ∀ k lab, jsToLower (jsTrim ag) = k →
      (if k ≠ [] then
        match ORCHESTRATOR_AGENT_LABELS.find? (fun p => p.1 = k) with
        | some p => p.2
        | none => k
      else S "エージェント") = lab →
      afterExecutionAgentLabel task = lab := by
    intro k lab hk hfind
    rw [afterExecutionAgentLabel]
    simp only [hag, hk]
    exact hfind
  refine ⟨?_, ?_, ?_, ?_, ?_, ?_⟩
  · intro hk
    rw [afterExecutionFinalText, hlabel _ (S "Scheduler エージェント") hk (by decide)]
    simp [S]
  · intro hk
    rw [afterExecutionFinalText, hlabel _ (S "ブラウザエージェント") hk (by decide)]
    simp [S]
  · intro hk
    rw [afterExecutionFinalText, hlabel _ (S "IoT エージェント") hk (by decide)]
    simp [S]
  · intro hk
    rw [afterExecutionFinalText, hlabel _ (S "Life-Styleエージェント") hk (by decide)]
    simp [S]
  · intro hk
    rw [afterExecutionFinalText]
    rcases hk with hk | hk | hk | hk
    · rw [hlabel _ (S "Scheduler エージェント") hk (by decide)]
      exact (labeled_text_kept _ _ (by decide) (by decide) htne htl).2
    · rw [hlabel _ (S "ブラウザエージェント") hk (by decide)]
      exact (labeled_text_kept _ _ (by decide) (by decide) htne htl).2
    · rw [hlabel _ (S "IoT エージェント") hk (by decide)]
      exact (labeled_text_kept _ _ (by decide) (by decide) htne htl).2
    · rw [hlabel _ (S "Life-Styleエージェント") hk (by decide)]
      exact (labeled_text_kept _ _ (by decide) (by decide) htne htl).2
  · intro t ht
    have hne : jsTrim t ≠ [] := by
      intro he
      rw [he] at ht
      simp [startsWithLabel, labelMatch] at ht
    simp only [prefixOrchestratorText]
    rw [if_neg hne, if_pos ht]

/-- Witness for C7 at the concrete Scenario-B event (`scheduler` agent,
`{status: "ok", response: "3件の予定があります"}`): the final text is the
response prefixed `[Scheduler エージェント] `, and the stored text keeps
that single label. -/
theorem after_execution_agent_labeled_witness :
    afterExecutionFinalText
        (Json.obj [(S "agent", Json.str (S "scheduler"))])
        (Json.obj [(S "status", Json.str (S "ok")),
                   (S "response", Json.str (S "3件の予定があります"))]) =
      S "[Scheduler エージェント] " ++
        afterExecutionTail
          (Json.obj [(S "status", Json.str (S "ok")),
                     (S "response", Json.str (S "3件の予定があります"))]) :=
  (after_execution_agent_labeled
      (Json.obj [(S "agent", Json.str (S "scheduler"))])
      (Json.obj [(S "status", Json.str (S "ok")),
                 (S "response", Json.str (S "3件の予定があります"))])
      (S "scheduler") rfl).1 (by decide)

/-! ## Browser chat log and its message index
(`normalizeBrowserAgentMessage` / `setBrowserChatHistory` /
`appendBrowserChatMessage` / `updateBrowserChatMessage`,
src/unnamed/part_003 lines 1000-1066; `browserMessageIndex`, line 131). -/

/-- A browser chat message; the timestamp field is omitted from the model
(no claim consults it). -/
structure BrowserMsg where
  id : Option Int
  role : Str
  text : Str

/-- `(raw.role || "").toLowerCase()`: strings are lowercased (the empty
string is falsy but yields `""` either way), other falsy values yield
`""`, and a truthy non-string throws a TypeError, modelled as `none`. -/
def jsRoleString (v : Option Json) : Option Str :=
  match v with
  | some (.str s) => some (jsToLower s)
  | some w => if jsTruthy w then none else some []
  | none => some []

/-- `normalizeBrowserAgentMessage(raw)`; a `none` result models the
TypeError thrown on a truthy non-string `role`, which aborts the calling
operation before any state mutation. -/
def normalizeBrowserAgentMessage (raw : Json) : Option BrowserMsg :=
  if raw.isObj = false then some ⟨none, S "system", []⟩
  else
    match jsRoleString (raw.getField (S "role")) with
    | none => none
    | some role =>
      let normalizedRole :=
        if role = S "user" then S "user"
        else if role = S "assistant" then S "assistant"
        else S "system"
      let text :=
        match raw.getField (S "content") with
        | some (.str s) => s
        | _ => []
      let id :=
        match raw.getField (S "id") with
        | some (.num n) => some n
        | _ => none
      some ⟨id, normalizedRole, text⟩

/-- JS `Map.get(k)` over an assoc-list model of an integer-keyed map
(`browserMessageIndex`, a task entry's `progress` map, `taskMessages`). -/
def mapGet {α : Type} (m : List (Int × α)) (k : Int) : Option α :=
  (m.find? (fun p => p.1 = k)).map (·.2)

/-- JS `Map.set(k, v)`: overwrite the binding of an existing key, else
append a new one (insertion-order semantics). -/
def mapSet {α : Type} (m : List (Int × α)) (k : Int) (v : α) : List (Int × α) :=
  match m with
  | [] => [(k, v)]
  | p :: rest => if p.1 = k then (k, v) :: rest else p :: mapSet rest k v

/-- The browser chat log state: `browserChatState.messages` plus the
module-level `browserMessageIndex` map. -/
structure BrowserChatSt where
  messages : List BrowserMsg
  index : List (Int × Nat)

/-- The `forEach` of `setBrowserChatHistory` (lines 1029-1033): walk the
messages with their positions, indexing each numeric id. -/
def buildIndexAux : List BrowserMsg → Nat → List (Int × Nat) → List (Int × Nat)
  | [], _, acc => acc
  | m :: rest, i, acc =>
    buildIndexAux rest (i + 1)
      (match m.id with
       | some n => mapSet acc n i
       | none => acc)

/-- `setBrowserChatHistory(history)`: normalize every entry (a history
that is not an array is modelled by `[]`), fall back to the placeholder
message when empty, clear and rebuild the index.  A TypeError during the
`map` (some entry's role is a truthy non-string) aborts before any state
mutation. -/
def setBrowserChatHistory (history : List Json) (st : BrowserChatSt) :
    BrowserChatSt :=
  match history.mapM normalizeBrowserAgentMessage with
  | none => st
  | some converted =>
    let msgs :=
      if converted.isEmpty then
        [⟨none, S "system", S "まだメッセージはありません。"⟩]
      else converted
    { messages := msgs, index := buildIndexAux msgs 0 [] }

/-- `appendBrowserChatMessage(raw)` (lines 1037-1052): replace in place
when the id is already indexed, else index (when numeric) and push. -/
def appendBrowserChatMessage (raw : Json) (st : BrowserChatSt) : BrowserChatSt :=
  match normalizeBrowserAgentMessage raw with
  | none => st
  | some message =>
    match message.id with
    | some n =>
      match mapGet st.index n with
      | some existingIndex =>
        { st with messages := st.messages.set existingIndex message }
      | none =>
        { messages := st.messages ++ [message],
          index := mapSet st.index n st.messages.length }
    | none => { st with messages := st.messages ++ [message] }

/-- `updateBrowserChatMessage(raw)` (lines 1054-1066): overwrite the entry
at the indexed position when the id is present, else fall through to
`appendBrowserChatMessage`. -/
def updateBrowserChatMessage (raw : Json) (st : BrowserChatSt) : BrowserChatSt :=
  match normalizeBrowserAgentMessage raw with
  | none => st
  | some message =>
    match message.id with
    | some n =>
      match mapGet st.index n with
      | some i => { st with messages := st.messages.set i message }
      | none => appendBrowserChatMessage raw st
    | none => appendBrowserChatMessage raw st

/-- C10's invariant: every index binding points at an in-range message
carrying exactly that id, and every message with a numeric id has its id
in the index. -/
def browserIndexFaithful (st : BrowserChatSt) : Prop :=
  (∀ k i, mapGet st.index k = some i →
    ∃ msg, st.messages[i]? = some msg ∧ msg.id = some k) ∧
  (∀ m ∈ st.messages, ∀ n, m.id = some n → (mapGet st.index n).isSome = true)

theorem mapGet_set_self {α : Type} (m : List (Int × α)) (k : Int) (v : α) :
    mapGet (mapSet m k v) k = some v := by
  induction m with
  | nil => simp [mapSet, mapGet, List.find?]
  | cons p rest ih =>
    by_cases hp : p.1 = k
    · simp [mapSet, hp, mapGet, List.find?]
    · simp only [mapSet, if_neg hp, mapGet, List.find?]
      rw [show (decide (p.1 = k)) = false by simpa using hp]
      exact ih

theorem mapGet_set_other {α : Type} (m : List (Int × α)) (k k' : Int) (v : α)
    (h : k' ≠ k) : mapGet (mapSet m k v) k' = mapGet m k' := by
  induction m with
  | nil => simp [mapSet, mapGet, List.find?, Ne.symm h]
  | cons p rest ih =>
    by_cases hp : p.1 = k
    · simp only [mapSet, if_pos hp, mapGet, List.find?]
      rw [show (decide (k = k')) = false by simpa using (Ne.symm h),
        show (decide (p.1 = k')) = false by simpa [hp] using (Ne.symm h)]
    · simp only [mapSet, if_neg hp, mapGet, List.find?]
      cases hd : decide (p.1 = k')
      · exact ih
      · rfl

theorem mapGet_isSome_set {α : Type} (m : List (Int × α)) (k k' : Int) (v : α)
    (h : (mapGet m k').isSome = true) :
    (mapGet (mapSet m k v) k').isSome = true := by
  by_cases hk : k' = k
  · subst hk
    rw [mapGet_set_self]
    rfl
  · rwa [mapGet_set_other m k k' v hk]

theorem getElem?_some_lt {l : List BrowserMsg} {i : Nat} {m : BrowserMsg}
    (h : l[i]? = some m) : i < l.length := by
  by_contra hge
  rw [List.getElem?_eq_none (by omega)] at h
  exact Option.noConfusion h

theorem setInPlace_faithful (st : BrowserChatSt) (message : BrowserMsg)
    (n : Int) (ei : Nat) (hid : message.id = some n)
    (hg : mapGet st.index n = some ei) (h : browserIndexFaithful st) :
    browserIndexFaithful ⟨st.messages.set ei message, st.index⟩ := by
  obtain ⟨h1, h2⟩ := h
  obtain ⟨oldMsg, hold, holdid⟩ := h1 n ei hg
  have hlt : ei < st.messages.length := getElem?_some_lt hold
  constructor
  · intro k i hk
    obtain ⟨msg, hm, hmid⟩ := h1 k i hk
    by_cases hie : ei = i
    · subst hie
      rw [hold] at hm
      injection hm with hm'
      subst hm'
      rw [holdid] at hmid
      injection hmid with hnk
      refine ⟨message, ?_, by rw [hid, ← hnk]⟩
      rw [List.getElem?_set, if_pos rfl, if_pos hlt]
    · refine ⟨msg, ?_, hmid⟩
      rw [List.getElem?_set, if_neg hie]
      exact hm
  · intro m hm n' hmn'
    obtain ⟨j, hjlt, hje⟩ := List.getElem_of_mem hm
    have hj : (st.messages.set ei message)[j]? = some m := by
      rw [List.getElem?_eq_getElem hjlt]
      exact congrArg some hje
    rw [List.getElem?_set] at hj
    by_cases hje2 : ei = j
    · rw [if_pos hje2, if_pos (hje2 ▸ hlt)] at hj
      injection hj with hme
      subst hme
      rw [hid] at hmn'
      injection hmn' with hnn
      subst hnn
      rw [hg]
      rfl
    · rw [if_neg hje2] at hj
      exact h2 m (List.getElem?_mem hj) n' hmn'

theorem appendBrowser_faithful (raw : Json) (st : BrowserChatSt)
    (h : browserIndexFaithful st) :
    browserIndexFaithful (appendBrowserChatMessage raw st) := by
  obtain ⟨h1, h2⟩ := h
  cases hn : normalizeBrowserAgentMessage raw with
  | none =>
    have heq : appendBrowserChatMessage raw st = st := by
      simp [appendBrowserChatMessage, hn]
    rw [heq]
    exact ⟨h1, h2⟩
  | some message =>
    cases hid : message.id with
    | none =>
      have heq : appendBrowserChatMessage raw st =
          ⟨st.messages ++ [message], st.index⟩ := by
        simp [appendBrowserChatMessage, hn, hid]
      rw [heq]
      constructor
      · intro k i hk
        obtain ⟨msg, hm, hmid⟩ := h1 k i hk
        refine ⟨msg, ?_, hmid⟩
        rw [show (⟨st.messages ++ [message], st.index⟩ : BrowserChatSt).messages =
          st.messages ++ [message] from rfl]
        rwa [List.getElem?_append_left (getElem?_some_lt hm)]
      · intro m hm n hmn
        rcases List.mem_append.mp hm with h' | h'
        · exact h2 m h' n hmn
        · rw [List.mem_singleton] at h'
          subst h'
          rw [hid] at hmn
          exact Option.noConfusion hmn
    | some n =>
      cases hg : mapGet st.index n with
      | some existingIndex =>
        have heq : appendBrowserChatMessage raw st =
            ⟨st.messages.set existingIndex message, st.index⟩ := by
          simp [appendBrowserChatMessage, hn, hid, hg]
        rw [heq]
        exact setInPlace_faithful st message n existingIndex hid hg ⟨h1, h2⟩
      | none =>
        have heq : appendBrowserChatMessage raw st =
            ⟨st.messages ++ [message], mapSet st.index n st.messages.length⟩ := by
          simp [appendBrowserChatMessage, hn, hid, hg]
        rw [heq]
        constructor
        · intro k i hk
          by_cases hkn : k = n
          · subst hkn
            rw [show (⟨st.messages ++ [message],
                mapSet st.index k st.messages.length⟩ : BrowserChatSt).index =
              mapSet st.index k st.messages.length from rfl, mapGet_set_self] at hk
            injection hk with hk'
            subst hk'
            exact ⟨message, List.getElem?_concat_length _ _, hid⟩
          · rw [show (⟨st.messages ++ [message],
                mapSet st.index n st.messages.length⟩ : BrowserChatSt).index =
              mapSet st.index n st.messages.length from rfl,
              mapGet_set_other _ _ _ _ hkn] at hk
            obtain ⟨msg, hm, hmid⟩ := h1 k i hk
            refine ⟨msg, ?_, hmid⟩
            rw [show (⟨st.messages ++ [message],
              mapSet st.index n st.messages.length⟩ : BrowserChatSt).messages =
              st.messages ++ [message] from rfl]
            rwa [List.getElem?_append_left (getElem?_some_lt hm)]
        · intro m hm n' hmn'
          rcases List.mem_append.mp hm with h' | h'
          · exact mapGet_isSome_set _ _ _ _ (h2 m h' n' hmn')
          · rw [List.mem_singleton] at h'
            rw [h', hid] at hmn'
            injection hmn' with hnn
            rw [← hnn]
            rw [show (⟨st.messages ++ [message],
              mapSet st.index n st.messages.length⟩ : BrowserChatSt).index =
              mapSet st.index n st.messages.length from rfl, mapGet_set_self]
            rfl

theorem updateBrowser_faithful (raw : Json) (st : BrowserChatSt)
    (h : browserIndexFaithful st) :
    browserIndexFaithful (updateBrowserChatMessage raw st) := by
  cases hn : normalizeBrowserAgentMessage raw with
  | none =>
    have heq : updateBrowserChatMessage raw st = st := by
      simp [updateBrowserChatMessage, hn]
    rw [heq]
    exact h
  | some message =>
    cases hid : message.id with
    | none =>
      have heq : updateBrowserChatMessage raw st = appendBrowserChatMessage raw st := by
        simp [updateBrowserChatMessage, hn, hid]
      rw [heq]
      exact appendBrowser_faithful raw st h
    | some n =>
      cases hg : mapGet st.index n with
      | some i =>
        have heq : updateBrowserChatMessage raw st =
            ⟨st.messages.set i message, st.index⟩ := by
          simp [updateBrowserChatMessage, hn, hid, hg]
        rw [heq]
        exact setInPlace_faithful st message n i hid hg h
      | none =>
        have heq : updateBrowserChatMessage raw st = appendBrowserChatMessage raw st := by
          simp [updateBrowserChatMessage, hn, hid, hg]
        rw [heq]
        exact appendBrowser_faithful raw st h

theorem buildIndexAux_inv (all : List BrowserMsg) (rest : List BrowserMsg) :
    ∀ (i : Nat) (acc : List (Int × Nat)),
      all.drop i = rest →
      (∀ k j, mapGet acc k = some j →
        ∃ msg, all[j]? = some msg ∧ msg.id = some k) →
      (∀ k j, mapGet (buildIndexAux rest i acc) k = some j →
        ∃ msg, all[j]? = some msg ∧ msg.id = some k) ∧
      (∀ m ∈ rest, ∀ n, m.id = some n →
        (mapGet (buildIndexAux rest i acc) n).isSome = true) ∧
      (∀ k, (mapGet acc k).isSome = true →
        (mapGet (buildIndexAux rest i acc) k).isSome = true) := by
  induction rest with
  | nil =>
    intro i acc _ hacc
    exact ⟨hacc, by simp, fun k hk => hk⟩
  | cons m rest' ih =>
    intro i acc hdrop hacc
    have hmi : all[i]? = some m := by
      have hge := List.getElem?_drop all i 0
      rw [hdrop] at hge
      simpa using hge.symm
    have hdrop' : all.drop (i + 1) = rest' := by
      have h₂ : all.drop (i + 1) = (all.drop i).drop 1 := by
        rw [List.drop_drop]
      rw [h₂, hdrop]
      rfl
    have hacc' : ∀ k j,
        mapGet (match m.id with
          | some n => mapSet acc n i
          | none => acc) k = some j →
        ∃ msg, all[j]? = some msg ∧ msg.id = some k := by
      cases hmid : m.id with
      | none => exact hacc
      | some n =>
        intro k j hk
        by_cases hkn : k = n
        · subst hkn
          rw [mapGet_set_self] at hk
          injection hk with hk'
          subst hk'
          exact ⟨m, hmi, hmid⟩
        · rw [mapGet_set_other _ _ _ _ hkn] at hk
          exact hacc k j hk
    obtain ⟨ih1, ih2, ih3⟩ := ih (i + 1) _ hdrop' hacc'
    refine ⟨by simpa [buildIndexAux] using ih1, ?_, ?_⟩
    · intro m' hm' n hmn'
      rcases List.mem_cons.mp hm' with rfl | hmem
      · have hbase : (mapGet (match m'.id with
            | some n => mapSet acc n i
            | none => acc) n).isSome = true := by
          rw [hmn', mapGet_set_self]
          rfl
        simpa [buildIndexAux] using ih3 n hbase
      · simpa [buildIndexAux] using ih2 m' hmem n hmn'
    · intro k hk
      have hbase : (mapGet (match m.id with
          | some n => mapSet acc n i
          | none => acc) k).isSome = true := by
        cases hmid : m.id with
        | none => exact hk
        | some n => exact mapGet_isSome_set _ _ _ _ hk
      simpa [buildIndexAux] using ih3 k hbase

theorem setHistory_faithful (history : List Json) (st : BrowserChatSt) :
    browserIndexFaithful (setBrowserChatHistory history st) ∨
    setBrowserChatHistory history st = st := by
  cases hmap : history.mapM normalizeBrowserAgentMessage with
  | none =>
    right
    unfold setBrowserChatHistory
    rw [hmap]
  | some converted =>
    left
    have heq : setBrowserChatHistory history st =
        ⟨if converted.isEmpty then
          [⟨none, S "system", S "まだメッセージはありません。"⟩]
         else converted,
         buildIndexAux
          (if converted.isEmpty then
            [⟨none, S "system", S "まだメッセージはありません。"⟩]
           else converted) 0 []⟩ := by
      unfold setBrowserChatHistory
      rw [hmap]
    rw [heq]
    have hinv := buildIndexAux_inv
      (if converted.isEmpty then
        [⟨none, S "system", S "まだメッセージはありません。"⟩] else converted)
      (if converted.isEmpty then
        [⟨none, S "system", S "まだメッセージはありません。"⟩] else converted)
      0 [] (by simp) (by intro k j hj; simp [mapGet] at hj)
    exact ⟨fun k i hk => hinv.1 k i hk, fun m hm n hmn => hinv.2.1 m hm n hmn⟩

/-- **C10**: `browserMessageIndex` is a faithful index of the browser chat
log: `setBrowserChatHistory` establishes the invariant from any prior
state, and `appendBrowserChatMessage` and `updateBrowserChatMessage`
preserve it — every index binding points at an in-range message with that
id, and every message with a numeric id has its id in the index.  (The
one exception is an input whose role field is a truthy non-string, where
the source throws a TypeError before mutating anything, so the state —
and with it the invariant — is unchanged.) -/
theorem browser_message_index_faithful (history : List Json) (raw : Json)
    (st : BrowserChatSt) (h : browserIndexFaithful st) :
    browserIndexFaithful (setBrowserChatHistory history st) ∧
    browserIndexFaithful (appendBrowserChatMessage raw st) ∧
    browserIndexFaithful (updateBrowserChatMessage raw st) := by
  refine ⟨?_, appendBrowser_faithful raw st h, updateBrowser_faithful raw st h⟩
  rcases setHistory_faithful history st with hf | he
  · exact hf
  · rw [he]
    exact h

/-- Witness for C10 at the concrete operations on the empty state: the
invariant holds after inserting history `[{id: 1, role: "user",
content: "hi"}]` and after appending `{id: 2, role: "assistant",
content: "yo"}`. -/
theorem browser_message_index_faithful_witness :
    browserIndexFaithful (setBrowserChatHistory
      [Json.obj [(S "id", Json.num 1), (S "role", Json.str (S "user")),
                 (S "content", Json.str (S "hi"))]] ⟨[], []⟩) ∧
    browserIndexFaithful (appendBrowserChatMessage
      (Json.obj [(S "id", Json.num 2), (S "role", Json.str (S "assistant")),
                 (S "content", Json.str (S "yo"))]) ⟨[], []⟩) := by
  have h0 : browserIndexFaithful ⟨[], []⟩ :=
    ⟨fun k i hk => by simp [mapGet] at hk, fun m hm => by simp at hm⟩
  exact ⟨(browser_message_index_faithful _
      (Json.obj [(S "id", Json.num 2), (S "role", Json.str (S "assistant")),
                 (S "content", Json.str (S "yo"))]) ⟨[], []⟩ h0).1,
    (browser_message_index_faithful
      [Json.obj [(S "id", Json.num 1), (S "role", Json.str (S "user")),
                 (S "content", Json.str (S "hi"))]] _ ⟨[], []⟩ h0).2.1⟩

/-! ## Orchestrator progress-message idempotency
(the `execution_progress` handler of `sendOrchestratorMessage`,
src/unnamed/part_003 lines 1781-1827). -/

/-- An orchestrator chat message (role is always `assistant` for the
messages this handler touches; the timestamp is omitted). -/
structure OrchMsg where
  text : Str
  pending : Bool

/-- One `taskMessages` entry: the placeholder message (as an index into
the message list; object identity in the source) and the per-task
`progress` map from `message_id` to the progress message. -/
structure TaskEntry where
  placeholder : Option Nat
  progress : List (Int × Nat)

/-- The orchestrator state the `execution_progress` handler reads and
writes: the message list and the per-task entry map. -/
structure OrchState where
  messages : List OrchMsg
  taskMessages : List (Int × TaskEntry)

/-- The agent display label (`ORCHESTRATOR_AGENT_LABELS[agentRaw] ||
agentRaw`, with the `エージェント` fallback for an empty key). -/
def orchAgentLabel (agentRaw : Str) : Str :=
  if agentRaw ≠ [] then
    match ORCHESTRATOR_AGENT_LABELS.find? (fun p => p.1 = agentRaw) with
    | some p => p.2
    | none => agentRaw
  else S "エージェント"

/-- `` `[${agentLabel}] ${textValue}` `` (line 1795). -/
def progressFormatted (agentRaw textRaw : Str) : Str :=
  S "[" ++ orchAgentLabel agentRaw ++ S "] " ++ jsTrim textRaw

/-- The `execution_progress` handler as a state transition (lines
1781-1827): skip empty text; without a numeric `task_index` append a
fallback message; otherwise ensure the task entry exists and either
replace the progress message already registered under `message_id` in
place, or append a new message, registering it when an id is present.
(`addOrchestratorAssistantMessage` stores `prefixOrchestratorText` of its
argument; the in-place update assigns `formatted` directly.) -/
def execProgressStep (st : OrchState) (taskIndex : Option Int)
    (agentRaw textRaw : Str) (messageId : Option Int) : OrchState :=
  if jsTrim textRaw = [] then st
  else
    let formatted := progressFormatted agentRaw textRaw
    match taskIndex with
    | none =>
      { st with messages :=
          st.messages ++ [⟨prefixOrchestratorText formatted, false⟩] }
    | some t =>
      let entry := (mapGet st.taskMessages t).getD ⟨none, []⟩
      let st₁ := { st with taskMessages := mapSet st.taskMessages t entry }
      match messageId with
      | some mid =>
        (match mapGet entry.progress mid with
         | some idx =>
           { st₁ with messages := st₁.messages.set idx ⟨formatted, false⟩ }
         | none =>
           { messages :=
               st₁.messages ++ [⟨prefixOrchestratorText formatted, false⟩],
             taskMessages := mapSet st₁.taskMessages t
               { entry with
                   progress := mapSet entry.progress mid st₁.messages.length } })
      | none =>
        { st₁ with messages :=
            st₁.messages ++ [⟨prefixOrchestratorText formatted, false⟩] }

/-- The `message_id` registered under task `t` in the state's task map. -/
def progressLookup (st : OrchState) (t : Int) (mid : Int) : Option Nat :=
  mapGet ((mapGet st.taskMessages t).getD ⟨none, []⟩).progress mid

theorem execProgress_append_fresh (s : OrchState) (t : Int)
    (agent txt : Str) (mid : Int) (hne : jsTrim txt ≠ [])
    (hl : progressLookup s t mid = none) :
    execProgressStep s (some t) agent txt (some mid) =
      { messages := s.messages ++
          [⟨prefixOrchestratorText (progressFormatted agent txt), false⟩],
        taskMessages := mapSet
          (mapSet s.taskMessages t ((mapGet s.taskMessages t).getD ⟨none, []⟩)) t
          { (mapGet s.taskMessages t).getD ⟨none, []⟩ with
              progress := mapSet
                ((mapGet s.taskMessages t).getD ⟨none, []⟩).progress mid
                s.messages.length } } := by
  rw [progressLookup] at hl
  simp only [execProgressStep, if_neg hne]
  rw [hl]

theorem execProgress_replace (s : OrchState) (t : Int)
    (agent txt : Str) (mid : Int) (idx : Nat) (hne : jsTrim txt ≠ [])
    (hl : progressLookup s t mid = some idx) :
    execProgressStep s (some t) agent txt (some mid) =
      { messages := s.messages.set idx ⟨progressFormatted agent txt, false⟩,
        taskMessages := mapSet s.taskMessages t
          ((mapGet s.taskMessages t).getD ⟨none, []⟩) } := by
  rw [progressLookup] at hl
  simp only [execProgressStep, if_neg hne]
  rw [hl]

/-- **C3**: progress delivery is idempotent per message id: for any task
index, a first `execution_progress` event with a fresh numeric
`message_id` appends one message and registers the id; a second event
with the same id replaces that message's text in place and does not grow
the orchestrator message list; an event without a `message_id` appends;
and `updateBrowserChatMessage` with an id already present in
`browserMessageIndex` overwrites the existing entry rather than growing
the list. -/
theorem progress_idempotent_per_message_id (st : OrchState) (t : Int)
    (agent agent' txt txt' : Str) (mid : Int) (raw : Json) (bst : BrowserChatSt)
    (hne : jsTrim txt ≠ []) (hne' : jsTrim txt' ≠ [])
    (hfresh : progressLookup st t mid = none) :
    (execProgressStep st (some t) agent txt (some mid)).messages.length =
      st.messages.length + 1 ∧
    progressLookup (execProgressStep st (some t) agent txt (some mid)) t mid =
      some st.messages.length ∧
    (execProgressStep (execProgressStep st (some t) agent txt (some mid))
        (some t) agent' txt' (some mid)).messages.length =
      st.messages.length + 1 ∧
    (execProgressStep (execProgressStep st (some t) agent txt (some mid))
        (some t) agent' txt' (some mid)).messages[st.messages.length]? =
      some ⟨progressFormatted agent' txt', false⟩ ∧
    (execProgressStep st (some t) agent txt none).messages.length =
      st.messages.length + 1 ∧
    (∀ message n i, normalizeBrowserAgentMessage raw = some message →
      message.id = some n → mapGet bst.index n = some i →
      (updateBrowserChatMessage raw bst).messages.length =
        bst.messages.length) := by
  have h₁ := execProgress_append_fresh st t agent txt mid hne hfresh
  have hlook : progressLookup (execProgressStep st (some t) agent txt (some mid))
      t mid = some st.messages.length := by
    rw [h₁, progressLookup]
    simp only [mapGet_set_self, Option.getD_some]
  have h₂ := execProgress_replace
    (execProgressStep st (some t) agent txt (some mid)) t agent' txt' mid
    st.messages.length hne' hlook
  refine ⟨?_, hlook, ?_, ?_, ?_, ?_⟩
  · rw [h₁]
    simp
  · rw [h₂, h₁]
    simp
  · rw [h₂, h₁]
    show ((st.messages ++
        [(⟨prefixOrchestratorText (progressFormatted agent txt), false⟩ : OrchMsg)]).set
          st.messages.length
          ⟨progressFormatted agent' txt', false⟩)[st.messages.length]? =
      some (⟨progressFormatted agent' txt', false⟩ : OrchMsg)
    rw [List.getElem?_set, if_pos rfl, if_pos (by simp)]
  · simp only [execProgressStep, if_neg hne]
    simp
  · intro message n i hnorm hid hget
    have heq : updateBrowserChatMessage raw bst =
        ⟨bst.messages.set i message, bst.index⟩ := by
      simp [updateBrowserChatMessage, hnorm, hid, hget]
    rw [heq]
    simp

/-- Witness for C3: two progress events for task 0 carrying
`message_id: 7` leave a single appended message, with the second event's
text in place; and the browser-chat in-place update keeps a one-message
log at length one. -/
theorem progress_idempotent_per_message_id_witness :
    (execProgressStep (execProgressStep ⟨[], []⟩ (some 0) (S "browser")
        (S "a") (some 7)) (some 0) (S "browser") (S "b") (some 7)).messages.length
      = 1 ∧
    (updateBrowserChatMessage
        (Json.obj [(S "id", Json.num 3), (S "role", Json.str (S "assistant")),
                   (S "content", Json.str (S "new"))])
        ⟨[⟨some 3, S "assistant", S "old"⟩], [(3, 0)]⟩).messages.length = 1 :=
  ⟨(progress_idempotent_per_message_id ⟨[], []⟩ 0 (S "browser") (S "browser")
      (S "a") (S "b") 7 Json.null ⟨[], []⟩ (by decide) (by decide) rfl).2.2.1,
   (progress_idempotent_per_message_id ⟨[], []⟩ 0 (S "browser") (S "browser")
      (S "a") (S "b") 7
      (Json.obj [(S "id", Json.num 3), (S "role", Json.str (S "assistant")),
                 (S "content", Json.str (S "new"))])
      ⟨[⟨some 3, S "assistant", S "old"⟩], [(3, 0)]⟩
      (by decide) (by decide) rfl).2.2.2.2.2
     ⟨some 3, S "assistant", S "new"⟩ 3 0 rfl rfl rfl⟩

/-! ## Browser-task exclusivity and the prompt queue
(`sendBrowserAgentPrompt`, src/unnamed/part_003 lines 1346-1441;
`orchestratorBrowserTaskActive`, line 91). -/

/-- The options object of `sendBrowserAgentPrompt` with its defaults. -/
structure SendOpts where
  allowQueue : Bool
  queuePriority : Str
  silentQueue : Bool
  allowDuringSend : Bool
  startNewTask : Bool

/-- One `promptQueue` entry: the trimmed prompt with the options it will
be re-sent with. -/
structure QueueEntry where
  text : Str
  options : SendOpts

/-- The state `sendBrowserAgentPrompt` consults: `browserChatState.sending`,
the module-level `orchestratorBrowserTaskActive` flag and the queue. -/
structure BrowserSendSt where
  sending : Bool
  orchestratorBrowserTaskActive : Bool
  promptQueue : List QueueEntry

/-- What a `sendBrowserAgentPrompt` invocation does before/instead of the
`/api/chat` call. -/
inductive SendAction where
  | noop
  | refuse
  | enqueue
  | drop
  | send : Bool → SendAction

/-- The decision logic of `sendBrowserAgentPrompt` (lines 1346-1405): an
empty trimmed prompt does nothing; a new task is refused (system message,
no call) while the orchestrator's browser task is active; while a send is
in flight a non-follow-up prompt is queued (tail or front) when
`allowQueue` holds — the stored entry forces `allowQueue:false,
silentQueue:true` — and silently dropped otherwise; in the remaining
cases the `/api/chat` call is issued (`send`, flagged as follow-up when
`allowDuringSend && sending`) with `sending` set. -/
def sendBrowserAgentPromptDecision (st : BrowserSendSt) (text : Str)
    (opts : SendOpts) : SendAction × BrowserSendSt :=
  let prompt := jsTrim text
  if prompt = [] then (.noop, st)
  else
    let isFollowUpWhileSending := opts.allowDuringSend && st.sending
    if opts.startNewTask && st.orchestratorBrowserTaskActive then (.refuse, st)
    else if st.sending && !isFollowUpWhileSending then
      if opts.allowQueue then
        let entry : QueueEntry :=
          ⟨prompt, { opts with allowQueue := false, silentQueue := true }⟩
        if opts.queuePriority = S "front" then
          (.enqueue, { st with promptQueue := entry :: st.promptQueue })
        else
          (.enqueue, { st with promptQueue := st.promptQueue ++ [entry] })
      else (.drop, st)
    else
      (.send isFollowUpWhileSending, { st with sending := true })

/-- The `finally` block of a non-follow-up send (lines 1427-1437): clear
`sending`, shift exactly one entry off the queue and dispatch it. -/
def completeBrowserSend (st : BrowserSendSt) : BrowserSendSt × Option QueueEntry :=
  match st.promptQueue with
  | [] => ({ st with sending := false, promptQueue := [] }, none)
  | e :: rest => ({ st with sending := false, promptQueue := rest }, some e)

/-- **C4 (amended)**: at most one browser task is in flight: a non-empty
prompt submitted with `startNewTask` while `orchestratorBrowserTaskActive`
is refused without touching the queue or issuing `/api/chat`; while
`sending` is set, a non-follow-up prompt is enqueued — at the tail, or the
front for `queuePriority: "front"`, with `allowQueue:false,
silentQueue:true` forced on the stored entry — when `allowQueue` holds,
and silently dropped (not enqueued, not sent) when it does not; a
`/api/chat` call happens only when no new-task/active conflict exists and
either nothing is in flight or the call is an allowed follow-up; and send
completion dispatches exactly the head entry of the queue. -/
theorem browser_task_exclusive (st : BrowserSendSt) (text : Str)
    (opts : SendOpts) (hne : jsTrim text ≠ []) :
    (opts.startNewTask = true → st.orchestratorBrowserTaskActive = true →
      sendBrowserAgentPromptDecision st text opts = (.refuse, st)) ∧
    (st.sending = true → opts.allowDuringSend = false →
      (opts.startNewTask = false ∨ st.orchestratorBrowserTaskActive = false) →
      opts.allowQueue = true → opts.queuePriority ≠ S "front" →
      sendBrowserAgentPromptDecision st text opts =
        (.enqueue, { st with promptQueue := st.promptQueue ++
          [⟨jsTrim text,
            { opts with allowQueue := false, silentQueue := true }⟩] })) ∧
    (st.sending = true → opts.allowDuringSend = false →
      (opts.startNewTask = false ∨ st.orchestratorBrowserTaskActive = false) →
      opts.allowQueue = true → opts.queuePriority = S "front" →
      sendBrowserAgentPromptDecision st text opts =
        (.enqueue, { st with promptQueue :=
          ⟨jsTrim text,
            { opts with allowQueue := false, silentQueue := true }⟩ ::
            st.promptQueue })) ∧
    (st.sending = true → opts.allowDuringSend = false →
      (opts.startNewTask = false ∨ st.orchestratorBrowserTaskActive = false) →
      opts.allowQueue = false →
      sendBrowserAgentPromptDecision st text opts = (.drop, st)) ∧
    (∀ a st', sendBrowserAgentPromptDecision st text opts = (.send a, st') →
      (opts.startNewTask = false ∨ st.orchestratorBrowserTaskActive = false) ∧
      (st.sending = false ∨ opts.allowDuringSend = true)) ∧
    ((completeBrowserSend st).2 = st.promptQueue.head? ∧
      (completeBrowserSend st).1.promptQueue = st.promptQueue.tail ∧
      (completeBrowserSend st).1.sending = false) := by
  have hconflict : ∀ (h : opts.startNewTask = false ∨
      st.orchestratorBrowserTaskActive = false),
      (opts.startNewTask && st.orchestratorBrowserTaskActive) = false := by
    rintro (h | h) <;> simp [h]
  refine ⟨?_, ?_, ?_, ?_, ?_, ?_, ?_, ?_⟩
  · intro hnew hact
    simp [sendBrowserAgentPromptDecision, hne, hnew, hact]
  · intro hs hf hc hq hp
    simp [sendBrowserAgentPromptDecision, hne, hconflict hc, hs, hf, hq, hp]
  · intro hs hf hc hq hp
    simp [sendBrowserAgentPromptDecision, hne, hconflict hc, hs, hf, hq, hp]
  · intro hs hf hc hq
    simp [sendBrowserAgentPromptDecision, hne, hconflict hc, hs, hf, hq]
  · intro a st' hdec
    by_cases hc : (opts.startNewTask && st.orchestratorBrowserTaskActive) = true
    · simp only [sendBrowserAgentPromptDecision, if_neg hne, if_pos hc] at hdec
      simp at hdec
    · have hcf : (opts.startNewTask && st.orchestratorBrowserTaskActive) = false :=
        Bool.eq_false_iff.mpr hc
      refine ⟨by
        rcases Bool.and_eq_false_iff.mp hcf with h | h
        · exact Or.inl h
        · exact Or.inr h, ?_⟩
      by_cases hsf : (st.sending && !(opts.allowDuringSend && st.sending)) = true
      · simp only [sendBrowserAgentPromptDecision, if_neg hne, if_neg hc,
          if_pos hsf] at hdec
        split at hdec
        · split at hdec <;> simp at hdec
        · simp at hdec
      · have : ∀ b c : Bool, (b && !(c && b)) = false → b = false ∨ c = true := by
          decide
        exact this st.sending opts.allowDuringSend (Bool.eq_false_iff.mpr hsf)
  · cases hq : st.promptQueue <;> simp [completeBrowserSend, hq]
  · cases hq : st.promptQueue <;> simp [completeBrowserSend, hq]
  · cases hq : st.promptQueue <;> simp [completeBrowserSend, hq]

/-- Witness for C4 at a concrete in-flight send (`sending: true`, default
options): the prompt `"go"` is enqueued at the tail with
`allowQueue:false, silentQueue:true` forced on the stored entry. -/
theorem browser_task_exclusive_witness :
    sendBrowserAgentPromptDecision ⟨true, false, []⟩ (S "go")
        ⟨true, S "tail", false, false, false⟩ =
      (.enqueue, ⟨true, false,
        [⟨S "go", ⟨false, S "tail", true, false, false⟩⟩]⟩) :=
  (browser_task_exclusive ⟨true, false, []⟩ (S "go")
    ⟨true, S "tail", false, false, false⟩ (by decide)).2.1
    rfl rfl (Or.inl rfl) rfl (by decide)

/-- Counterexample to C4 as stated: while a send is in flight, a
non-follow-up prompt submitted with `allowQueue: false` is silently
dropped — it is neither sent nor enqueued on `promptQueue`. -/
theorem browser_prompt_dropped_not_enqueued :
    sendBrowserAgentPromptDecision ⟨true, false, []⟩ (S "go")
        ⟨false, S "tail", false, false, false⟩ =
      (.drop, ⟨true, false, []⟩) ∧
    (sendBrowserAgentPromptDecision ⟨true, false, []⟩ (S "go")
        ⟨false, S "tail", false, false, false⟩).2.promptQueue = [] :=
  ⟨rfl, rfl⟩

end MAP






